import Mathlib

/-!
Shallow embedding of `src/parser.cpp` (tinylang): a recursive-descent,
precedence-climbing parser turning a token stream into an AST.

The parser source is `src/parser.cpp`.  The lexer, `parser.h` and the AST
node classes are not part of the repository snapshot; their interface is
modelled from the spec (token shape `{type, value}`, `peek`/`next`/`eof`,
and `error(msg)` which reports a fatal diagnostic and never returns).
Recursion is made total with an explicit fuel parameter; exhausting fuel
yields the distinguished result `PError.outOfFuel`, which is never the
outcome of the C++ program on any input on which it terminates.
-/

namespace Tinylang

/-- Modelled from the spec: the token shape produced by the (absent) lexer:
a `type` string (one of "punc", "kw", "op", "var", "num", "char", "str")
and a literal text `value`.  The parser's guards (`tok.type != ""`) show
that at end of stream `peek` yields a token with empty `type`. -/
structure Token where
  type : String
  value : String
deriving Repr, DecidableEq

/-- Parameter of a function: a pair of type name and variable name; the
variable name is the empty string when absent (C++ default ""). -/
structure Parameter where
  type : String
  name : String
deriving Repr, DecidableEq

/-- Modelled from the spec: the AST node classes (headers absent from the
snapshot).  `nullE` stands for a null `Expression*` (e.g. the absent body
of an extern declaration, an absent else branch, or the result of parsing
an empty brace pair `{}`).  `Program` carries the list of expressions of
its block (C++ `Program(new AST(vars))`). -/
inductive Expression where
  | nullE : Expression
  | Number (n : Int) : Expression
  | Boolean (b : Bool) : Expression
  | Character (c : Int) : Expression
  | Str (s : String) : Expression
  | Identifier (name : String) : Expression
  | Assign (op : String) (left right : Expression) : Expression
  | Binary (op : String) (left right : Expression) : Expression
  | If (cond thenBranch elseBranch : Expression) : Expression
  | Closure (params : List String) (body : Expression) : Expression
  | Function (name : String) (params : List Parameter) (body : Expression) : Expression
  | Call (func : Expression) (args : List Expression) : Expression
  | Program (body : List Expression) : Expression
deriving Repr

/-- Failure of a parse.  `diag msg` is a fatal diagnostic raised through
`input->error(msg)`; `mapAtFail` is the `std::out_of_range` exception of
the unguarded `OP_PRECEDENCE.at(...)` in `maybe_binary` (raised outside
the diagnostic mechanism); `stoiFail` is the exception of `std::stoi` on
a malformed numeral; `outOfFuel` is an artifact of the fuel encoding. -/
inductive PError where
  | diag (msg : String) : PError
  | mapAtFail : PError
  | stoiFail : PError
  | outOfFuel : PError
deriving Repr, DecidableEq

/-- The token stream: the list of not-yet-consumed tokens. -/
abbrev TState := List Token

/-- Result of a parsing function: a fatal failure, or a value together
with the remaining token stream. -/
abbrev PResult (α : Type) := Except PError (α × TState)

/-- Modelled from the spec: `input->peek()`; at end of stream it yields a
token with empty `type`, which every predicate of the parser rejects. -/
def peek : TState → Token
  | [] => ⟨"", ""⟩
  | t :: _ => t

/-- Modelled from the spec: `input->next()` returns the current token and
advances past it. -/
def nextTok : TState → Token × TState
  | [] => (⟨"", ""⟩, [])
  | t :: ts => (t, ts)

/-- Modelled from the spec: `input->eof()`. -/
def eofB (s : TState) : Bool := s.isEmpty

/-- C++ `value[0]`: the first character of a string, `'\0'` when empty
(`std::string::operator[]` at `size()` yields the null character). -/
def strHead (v : String) : Char := v.toList.headD (Char.ofNat 0)

/-- `OP_PRECEDENCE` from `parser.cpp`, as an association list; `.at` is
modelled by `List.lookup`, with a missing key raising `mapAtFail`. -/
def OP_PRECEDENCE : List (String × Int) :=
  [("=", 1), ("||", 2), ("&&", 3), ("<", 7), (">", 7), ("<=", 7), (">=", 7),
   ("==", 7), ("!=", 7), ("+", 10), ("-", 10), ("*", 20), ("/", 20), ("%", 20)]

/-- `is_punc(ch)` from `parser.cpp`. -/
def is_punc (ch : Char) (s : TState) : Bool :=
  let tok := peek s
  tok.type != "" && tok.type == "punc" && (ch == Char.ofNat 0 || strHead tok.value == ch)

/-- `is_kw(kw)` from `parser.cpp`. -/
def is_kw (kw : String) (s : TState) : Bool :=
  let tok := peek s
  tok.type != "" && tok.type == "kw" && (kw == "" || kw == tok.value)

/-- `is_op(op)` from `parser.cpp`. -/
def is_op (op : String) (s : TState) : Bool :=
  let tok := peek s
  tok.type != "" && tok.type == "op" && (op == "" || tok.value == op)

/-- `unexpected()` from `parser.cpp`: the diagnostic it raises. -/
def unexpectedErr (s : TState) : PError :=
  .diag ("Unexpected token \"" ++ (peek s).value ++ "\"")

/-- `skip_punc(ch)` from `parser.cpp`. -/
def skip_punc (ch : Char) (s : TState) : Except PError TState :=
  if is_punc ch s then .ok (nextTok s).2
  else .error (.diag ("Token '" ++ ch.toString ++ "' expected"))

/-- `skip_kw(kw)` from `parser.cpp`. -/
def skip_kw (kw : String) (s : TState) : Except PError TState :=
  if is_kw kw s then .ok (nextTok s).2
  else .error (.diag ("Keyword \"" ++ kw ++ "\" expected"))

/-- `skip_op(op)` from `parser.cpp`. -/
def skip_op (op : String) (s : TState) : Except PError TState :=
  if is_op op s then .ok (nextTok s).2
  else .error (.diag ("Operator '" ++ op ++ "' expected"))

/-- Value of a list of decimal digits. -/
def digitsVal (cs : List Char) : Nat :=
  cs.foldl (fun a c => a * 10 + (c.toNat - 48)) 0

/-- Model of `std::stoi`: skip leading whitespace, an optional sign, then
at least one decimal digit (otherwise the call throws, modelled as
`none`); trailing non-digit characters are ignored. -/
def stoi (v : String) : Option Int :=
  let cs := v.toList.dropWhile (fun c => c == ' ' || c == '\t' || c == '\n' || c == '\r')
  match cs with
  | '-' :: rest =>
      let ds := rest.takeWhile Char.isDigit
      if ds.isEmpty then none else some (-(digitsVal ds : Int))
  | '+' :: rest =>
      let ds := rest.takeWhile Char.isDigit
      if ds.isEmpty then none else some (digitsVal ds : Int)
  | rest =>
      let ds := rest.takeWhile Char.isDigit
      if ds.isEmpty then none else some (digitsVal ds : Int)

/-- `parse_bool()` from `parser.cpp`. -/
def parse_bool (s : TState) : PResult Expression :=
  .ok (.Boolean ((nextTok s).1.value == "true"), (nextTok s).2)

/-- `parse_varname()` from `parser.cpp`. -/
def parse_varname (s : TState) : PResult String :=
  let name := (nextTok s).1
  if name.type != "var" then .error (.diag "Variable name expected")
  else .ok (name.value, (nextTok s).2)

/-- `parse_param()` from `parser.cpp`. -/
def parse_param (s : TState) : PResult Parameter :=
  let typetok := (nextTok s).1
  let s₁ := (nextTok s).2
  if typetok.type != "var" then .error (.diag "Type name expected")
  else if (peek s₁).type == "var" then
    let nametok := (nextTok s₁).1
    if nametok.type != "var" then .error (.diag "Variable name expected")
    else .ok (⟨typetok.value, nametok.value⟩, (nextTok s₁).2)
  else .ok (⟨typetok.value, ""⟩, s₁)

/-- The loop of `delimited` from `parser.cpp` (`while (!input->eof())`
with the break-on-close, separator and re-check steps), followed by the
final `skip_punc(end)`.  `first` and `acc` are the loop variables; the
item parser is a parameter, as the C++ template's function pointer is.
Fuel bounds the number of loop iterations. -/
def delimitedCore {α : Type} (endc sep : Char) (item : TState → PResult α) :
    Nat → Bool → List α → TState → PResult (List α)
  | fuel, first, acc, s =>
    if eofB s then
      match skip_punc endc s with
      | .error e => .error e
      | .ok s₁ => .ok (acc, s₁)
    else if is_punc endc s then
      match skip_punc endc s with
      | .error e => .error e
      | .ok s₁ => .ok (acc, s₁)
    else
      match (if first then Except.ok s else skip_punc sep s) with
      | .error e => .error e
      | .ok s₁ =>
        if is_punc endc s₁ then
          match skip_punc endc s₁ with
          | .error e => .error e
          | .ok s₂ => .ok (acc, s₂)
        else
          match item s₁ with
          | .error e => .error e
          | .ok (x, s₂) =>
            match fuel with
            | 0 => .error .outOfFuel
            | f + 1 => delimitedCore endc sep item f false (acc ++ [x]) s₂

/-- `delimited(start, end, separator, parser)` from `parser.cpp`. -/
def delimited {α : Type} (startc endc sep : Char) (item : TState → PResult α)
    (fuel : Nat) (s : TState) : PResult (List α) :=
  match skip_punc startc s with
  | .error e => .error e
  | .ok s₁ => delimitedCore endc sep item fuel true [] s₁

/-- `parse_ext()` from `parser.cpp`. -/
def parse_ext (fuel : Nat) (s : TState) : PResult Expression :=
  match skip_kw "ext" s with
  | .error e => .error e
  | .ok s₁ =>
    let funcname := (nextTok s₁).1
    if funcname.type != "var" then .error (.diag "Function name expected")
    else
      match delimited '(' ')' ',' parse_param fuel (nextTok s₁).2 with
      | .error e => .error e
      | .ok (params, s₃) => .ok (.Function funcname.value params .nullE, s₃)

mutual

/-- `maybe_binary(left, prec)` from `parser.cpp`: the precedence climb.
The table access `OP_PRECEDENCE.at(tok.value)` is unguarded: a missing
key yields `mapAtFail`, not a diagnostic. -/
def maybe_binary : Nat → Expression → Int → TState → PResult Expression
  | 0, _, _, _ => .error .outOfFuel
  | fuel + 1, left, prec, s =>
    if is_op "" s then
      let tok := peek s
      match OP_PRECEDENCE.lookup tok.value with
      | none => .error .mapAtFail
      | some tokprec =>
        if tokprec > prec then
          let s₁ := (nextTok s).2
          match parse_atom fuel s₁ with
          | .error e => .error e
          | .ok (atom, s₂) =>
            match maybe_binary fuel atom tokprec s₂ with
            | .error e => .error e
            | .ok (right, s₃) =>
              if tok.value == "=" then
                maybe_binary fuel (.Assign tok.value left right) prec s₃
              else
                maybe_binary fuel (.Binary tok.value left right) prec s₃
        else .ok (left, s)
    else .ok (left, s)

/-- `parse_call(func)` from `parser.cpp`. -/
def parse_call : Nat → Expression → TState → PResult Expression
  | 0, _, _ => .error .outOfFuel
  | fuel + 1, func, s =>
    match delimited '(' ')' ',' (fun t => parse_expr fuel t) fuel s with
    | .error e => .error e
    | .ok (args, s₁) => .ok (.Call func args, s₁)

/-- `maybe_call(call)` from `parser.cpp`, applied to the already computed
result of its function argument (`Expression* result = call();`). -/
def maybe_call : Nat → Expression → TState → PResult Expression
  | 0, _, _ => .error .outOfFuel
  | fuel + 1, result, s =>
    if is_punc '(' s then parse_call fuel result s else .ok (result, s)

/-- `parse_if()` from `parser.cpp`. -/
def parse_if : Nat → TState → PResult Expression
  | 0, _ => .error .outOfFuel
  | fuel + 1, s =>
    match skip_kw "if" s with
    | .error e => .error e
    | .ok s₁ =>
      match parse_expr fuel s₁ with
      | .error e => .error e
      | .ok (cond, s₂) =>
        match parse_expr fuel s₂ with
        | .error e => .error e
        | .ok (thenB, s₃) =>
          if is_kw "else" s₃ then
            let s₄ := (nextTok s₃).2
            match parse_expr fuel s₄ with
            | .error e => .error e
            | .ok (elsB, s₅) => .ok (.If cond thenB elsB, s₅)
          else .ok (.If cond thenB .nullE, s₃)

/-- `parse_closure()` from `parser.cpp` (the keyword `cls` is consumed by
the caller, `parse_atom`). -/
def parse_closure : Nat → TState → PResult Expression
  | 0, _ => .error .outOfFuel
  | fuel + 1, s =>
    match delimited '(' ')' ',' parse_varname fuel s with
    | .error e => .error e
    | .ok (params, s₁) =>
      match parse_prog fuel s₁ with
      | .error e => .error e
      | .ok (body, s₂) => .ok (.Closure params body, s₂)

/-- `parse_func()` from `parser.cpp`: consumes the `def` keyword and then
the function-name token blindly (no identifier-kind check). -/
def parse_func : Nat → TState → PResult Expression
  | 0, _ => .error .outOfFuel
  | fuel + 1, s =>
    let s₁ := (nextTok s).2
    let tok := (nextTok s₁).1
    let s₂ := (nextTok s₁).2
    match (if is_punc '(' s₂ then delimited '(' ')' ',' parse_param fuel s₂
           else Except.ok ([], s₂)) with
    | .error e => .error e
    | .ok (params, s₃) =>
      match parse_expr fuel s₃ with
      | .error e => .error e
      | .ok (body, s₄) => .ok (.Function tok.value params body, s₄)

/-- The lambda inside `parse_atom()` in `parser.cpp`: the dispatch over
the grammar's primary forms, before the call wrapper is applied. -/
def parse_atom_inner : Nat → TState → PResult Expression
  | 0, _ => .error .outOfFuel
  | fuel + 1, s =>
    if is_kw "ext" s then parse_ext fuel s
    else if is_kw "def" s then parse_func fuel s
    else if is_punc '(' s then
      let s₁ := (nextTok s).2
      match parse_expr fuel s₁ with
      | .error e => .error e
      | .ok (expr, s₂) =>
        match skip_punc ')' s₂ with
        | .error e => .error e
        | .ok s₃ => .ok (expr, s₃)
    else if is_punc '{' s then parse_prog fuel s
    else if is_kw "if" s then parse_if fuel s
    else if is_kw "true" s || is_kw "false" s then parse_bool s
    else if is_kw "cls" s then
      let s₁ := (nextTok s).2
      parse_closure fuel s₁
    else
      let tok := (nextTok s).1
      let s₁ := (nextTok s).2
      if tok.type == "var" then .ok (.Identifier tok.value, s₁)
      else if tok.type == "num" then
        match stoi tok.value with
        | some n => .ok (.Number n, s₁)
        | none => .error .stoiFail
      else if tok.type == "char" then
        .ok (.Character (Int.ofNat (strHead tok.value).toNat), s₁)
      else if tok.type == "str" then .ok (.Str tok.value, s₁)
      else .error (unexpectedErr s)

/-- `parse_atom()` from `parser.cpp`: the primary-form dispatch wrapped
by `maybe_call`. -/
def parse_atom : Nat → TState → PResult Expression
  | 0, _ => .error .outOfFuel
  | fuel + 1, s =>
    match parse_atom_inner fuel s with
    | .error e => .error e
    | .ok (e, s₁) => maybe_call fuel e s₁

/-- `parse_expr()` from `parser.cpp`: `maybe_call` applied to
`maybe_binary(parse_atom(), 0)`. -/
def parse_expr : Nat → TState → PResult Expression
  | 0, _ => .error .outOfFuel
  | fuel + 1, s =>
    match parse_atom fuel s with
    | .error e => .error e
    | .ok (a, s₁) =>
      match maybe_binary fuel a 0 s₁ with
      | .error e => .error e
      | .ok (e, s₂) => maybe_call fuel e s₂

/-- `parse_prog()` from `parser.cpp`: a `{`/`}`-delimited `;`-separated
expression sequence; an empty sequence yields a null expression. -/
def parse_prog : Nat → TState → PResult Expression
  | 0, _ => .error .outOfFuel
  | fuel + 1, s =>
    match delimited '{' '}' ';' (fun t => parse_expr fuel t) fuel s with
    | .error e => .error e
    | .ok (vars, s₁) =>
      if vars.isEmpty then .ok (.nullE, s₁)
      else .ok (.Program vars, s₁)

end

/-- The loop of `parse_toplevel()` from `parser.cpp`; `acc` is the AST
built so far (`ast->push(...)` appends). -/
def parse_toplevel : Nat → List Expression → TState → PResult (List Expression)
  | fuel, acc, s =>
    if eofB s then .ok (acc, s)
    else
      match fuel with
      | 0 => .error .outOfFuel
      | f + 1 =>
        match parse_expr f s with
        | .error e => .error e
        | .ok (e, s₁) =>
          if eofB s₁ then parse_toplevel f (acc ++ [e]) s₁
          else
            match skip_punc ';' s₁ with
            | .error e => .error e
            | .ok s₂ => parse_toplevel f (acc ++ [e]) s₂

/-- `Parser::parse_toplevel()`: the whole-program entry point. -/
def parseProgram (fuel : Nat) (s : TState) : PResult (List Expression) :=
  parse_toplevel fuel [] s


/-! Token builders used in the claim statements. -/

/-- An identifier-kind token. -/
def varTok (v : String) : Token := ⟨"var", v⟩

/-- A number-kind token. -/
def numTok (v : String) : Token := ⟨"num", v⟩

/-- An operator-kind token. -/
def opTok (v : String) : Token := ⟨"op", v⟩

/-- A punctuation-kind token. -/
def puncTok (v : String) : Token := ⟨"punc", v⟩

/-- A keyword-kind token. -/
def kwTok (v : String) : Token := ⟨"kw", v⟩

/-- Whether an expression is the null expression (a C++ null
`Expression*`). -/
def Expression.isNull : Expression → Bool
  | .nullE => true
  | _ => false
mutual

/-- A node is fully formed when none of its mandatory children (the two
operands of Assign and Binary nodes, the callee of Call nodes, the
condition and then-branch of If nodes) is null, recursively. -/
def fullyFormed : Expression → Bool
  | .nullE => true
  | .Number _ => true
  | .Boolean _ => true
  | .Character _ => true
  | .Str _ => true
  | .Identifier _ => true
  | .Assign _ l r => !l.isNull && !r.isNull && fullyFormed l && fullyFormed r
  | .Binary _ l r => !l.isNull && !r.isNull && fullyFormed l && fullyFormed r
  | .If c t e => !c.isNull && !t.isNull && fullyFormed c && fullyFormed t && fullyFormed e
  | .Closure _ b => fullyFormed b
  | .Function _ _ b => fullyFormed b
  | .Call f args => !f.isNull && fullyFormed f && fullyFormedList args
  | .Program l => fullyFormedList l

/-- All expressions of a list are fully formed. -/
def fullyFormedList : List Expression → Bool
  | [] => true
  | e :: es => fullyFormed e && fullyFormedList es

end
/-- A good parse result: a fully formed, non-null expression. -/
def goodE (e : Expression) : Prop := fullyFormed e = true ∧ e ≠ .nullE
/-- Token-level form of the `is_punc` test, for stating the
no-empty-braces precondition. -/
def pMatch (ch : Char) (t : Token) : Bool :=
  t.type != "" && t.type == "punc" && (strHead t.value == ch)
/-- The stream contains no empty brace pair: no `{`-punctuation token is
immediately followed by a `}`-punctuation token. -/
def noEmptyBraces : TState → Bool
  | t₁ :: t₂ :: rest => !(pMatch '{' t₁ && pMatch '}' t₂) && noEmptyBraces (t₂ :: rest)
  | _ => true
/-- Every operator-kind token of the stream has a table precedence. -/
def opsInTable (s : TState) : Bool :=
  s.all (fun t => t.type != "op" || (OP_PRECEDENCE.lookup t.value).isSome)

/-- C1, counterexample: the claim says `a=b=1` parses to
Assign(`=`, a, Assign(`=`, b, 1)).  The parser in fact produces the
left-associated tree Assign(`=`, Assign(`=`, a, b), 1), because the
climb in `maybe_binary` uses the strict comparison `tokprec > prec`,
and the two trees are distinct. -/
theorem assign_chain_right_assoc_false :
    parseProgram 30 [varTok "a", opTok "=", varTok "b", opTok "=", numTok "1"] =
      .ok ([.Assign "=" (.Assign "=" (.Identifier "a") (.Identifier "b")) (.Number 1)], []) ∧
    Expression.Assign "=" (.Assign "=" (.Identifier "a") (.Identifier "b")) (.Number 1) ≠
      Expression.Assign "=" (.Identifier "a") (.Assign "=" (.Identifier "b") (.Number 1)) := by
  constructor
  · rfl
  · intro h
    injection h with h₁ h₂ h₃
    injection h₂

/-- C1, amended: chained assignment goes through the same left-first
construction of `maybe_binary` as every other operator, so for every pair
of identifier tokens and every numeral token, `a=b=1` parses to the
left-associated Assign(`=`, Assign(`=`, a, b), 1) (for any sufficient
fuel). -/
theorem assign_chain_left_assoc (f : Nat) (a b v : String) (n : Int)
    (h : stoi v = some n) :
    parseProgram (f + 20) [varTok a, opTok "=", varTok b, opTok "=", numTok v] =
      .ok ([.Assign "=" (.Assign "=" (.Identifier a) (.Identifier b)) (.Number n)], []) := by
  simp [parseProgram, parse_toplevel, parse_expr, parse_atom, parse_atom_inner, maybe_call,
    maybe_binary, parse_call, parse_if, parse_func, parse_prog, parse_closure, parse_ext,
    parse_bool, parse_varname, parse_param, delimited, delimitedCore, skip_punc, skip_kw,
    skip_op, is_op, is_kw, is_punc, peek, nextTok, eofB, strHead, OP_PRECEDENCE,
    unexpectedErr, varTok, opTok, numTok, h]

/-- C1, witness for `assign_chain_left_assoc` at `a=b=1`. -/
theorem assign_chain_left_assoc_witness :
    stoi "1" = some 1 ∧
    parseProgram 20 [varTok "a", opTok "=", varTok "b", opTok "=", numTok "1"] =
      .ok ([.Assign "=" (.Assign "=" (.Identifier "a") (.Identifier "b")) (.Number 1)], []) :=
  ⟨rfl, assign_chain_left_assoc 0 "a" "b" "1" 1 rfl⟩

/-- C2, counterexample: the claim says a call result that is immediately
re-invoked, as in `f()()`, is not automatically supported; in fact the
parser accepts `f()()` and produces Call(Call(f, []), []), because
`maybe_call` is applied both inside `parse_atom` and again at the end of
`parse_expr`. -/
theorem double_call_supported :
    parseProgram 30 [varTok "f", puncTok "(", puncTok ")", puncTok "(", puncTok ")"] =
      .ok ([.Call (.Call (.Identifier "f") []) []], []) := by
  rfl

/-- C2, amended: the call wrapper is applied exactly once per
`maybe_call` site and is not recursive, but there are two such sites (one
in `parse_atom`, one in `parse_expr`), so a doubly invoked call `f()()`
parses to Call(Call(f, []), []), while a triply invoked call `f()()()`
is not supported: the third `(` is left unconsumed and the top-level
driver fails with the diagnostic for a missing `;`. -/
theorem call_wrapper_two_sites (f : Nat) (a : String) :
    parseProgram (f + 20) [varTok a, puncTok "(", puncTok ")", puncTok "(", puncTok ")"] =
      .ok ([.Call (.Call (.Identifier a) []) []], []) ∧
    parseProgram (f + 20) [varTok a, puncTok "(", puncTok ")", puncTok "(", puncTok ")",
        puncTok "(", puncTok ")"] =
      .error (.diag "Token ';' expected") := by
  constructor <;>
  simp [parseProgram, parse_toplevel, parse_expr, parse_atom, parse_atom_inner, maybe_call,
    maybe_binary, parse_call, parse_if, parse_func, parse_prog, parse_closure, parse_ext,
    parse_bool, parse_varname, parse_param, delimited, delimitedCore, skip_punc, skip_kw,
    skip_op, is_op, is_kw, is_punc, peek, nextTok, eofB, strHead, OP_PRECEDENCE,
    unexpectedErr, varTok, puncTok, show Char.toString ';' = ";" from rfl]

/-- C3: two operators of equal table precedence associate left-to-right:
for any two non-assignment operator tokens of the same precedence and any
three numeral tokens, `x op1 y op2 z` parses to
Binary(op2, Binary(op1, x, y), z).  In particular `1-2-3` parses to
Binary(`-`, Binary(`-`, 1, 2), 3) (see the witness). -/
theorem equal_precedence_left_assoc (f : Nat) (op1 op2 : String) (p : Int)
    (v1 v2 v3 : String) (n1 n2 n3 : Int)
    (h1 : OP_PRECEDENCE.lookup op1 = some p) (h2 : OP_PRECEDENCE.lookup op2 = some p)
    (hp : 0 < p) (hne1 : op1 ≠ "=") (hne2 : op2 ≠ "=")
    (hv1 : stoi v1 = some n1) (hv2 : stoi v2 = some n2) (hv3 : stoi v3 = some n3) :
    parseProgram (f + 20) [numTok v1, opTok op1, numTok v2, opTok op2, numTok v3] =
      .ok ([.Binary op2 (.Binary op1 (.Number n1) (.Number n2)) (.Number n3)], []) := by
  simp [parseProgram, parse_toplevel, parse_expr, parse_atom, parse_atom_inner, maybe_call,
    maybe_binary, parse_call, parse_if, parse_func, parse_prog, parse_closure, parse_ext,
    parse_bool, parse_varname, parse_param, delimited, delimitedCore, skip_punc, skip_kw,
    skip_op, is_op, is_kw, is_punc, peek, nextTok, eofB, strHead,
    unexpectedErr, numTok, opTok, h1, h2, hp, hne1, hne2, hv1, hv2, hv3,
    lt_self_iff_false]

/-- C3, witness for `equal_precedence_left_assoc` at `1-2-3`. -/
theorem equal_precedence_left_assoc_witness :
    OP_PRECEDENCE.lookup "-" = some 10 ∧ (0 : Int) < 10 ∧ "-" ≠ "=" ∧ stoi "1" = some 1 ∧
    parseProgram 20 [numTok "1", opTok "-", numTok "2", opTok "-", numTok "3"] =
      .ok ([.Binary "-" (.Binary "-" (.Number 1) (.Number 2)) (.Number 3)], []) :=
  ⟨rfl, by decide, by decide, rfl,
    equal_precedence_left_assoc 0 "-" "-" 10 "1" "2" "3" 1 2 3 rfl rfl (by decide)
      (by decide) (by decide) rfl rfl rfl⟩

set_option maxRecDepth 8000 in
/-- C4: the operator precedence table of `parser.cpp` is exactly the
claimed fixed mapping, and binary trees honor it: for any two
non-assignment operator tokens with table precedences `pLo < pHi` (higher
binds tighter) and any three numeral tokens,
`x opLo y opHi z` parses to Binary(opLo, x, Binary(opHi, y, z)).  In
particular `1+2*3` parses to Binary(`+`, 1, Binary(`*`, 2, 3)) (see the
witness). -/
theorem precedence_table_honored :
    (OP_PRECEDENCE.lookup "=" = some 1 ∧ OP_PRECEDENCE.lookup "||" = some 2 ∧
     OP_PRECEDENCE.lookup "&&" = some 3 ∧ OP_PRECEDENCE.lookup "<" = some 7 ∧
     OP_PRECEDENCE.lookup ">" = some 7 ∧ OP_PRECEDENCE.lookup "<=" = some 7 ∧
     OP_PRECEDENCE.lookup ">=" = some 7 ∧ OP_PRECEDENCE.lookup "==" = some 7 ∧
     OP_PRECEDENCE.lookup "!=" = some 7 ∧ OP_PRECEDENCE.lookup "+" = some 10 ∧
     OP_PRECEDENCE.lookup "-" = some 10 ∧ OP_PRECEDENCE.lookup "*" = some 20 ∧
     OP_PRECEDENCE.lookup "/" = some 20 ∧ OP_PRECEDENCE.lookup "%" = some 20 ∧
     OP_PRECEDENCE.length = 14) ∧
    ∀ (f : Nat) (opLo opHi : String) (pLo pHi : Int) (v1 v2 v3 : String) (n1 n2 n3 : Int),
      OP_PRECEDENCE.lookup opLo = some pLo → OP_PRECEDENCE.lookup opHi = some pHi →
      0 < pLo → pLo < pHi → opLo ≠ "=" → opHi ≠ "=" →
      stoi v1 = some n1 → stoi v2 = some n2 → stoi v3 = some n3 →
      parseProgram (f + 20) [numTok v1, opTok opLo, numTok v2, opTok opHi, numTok v3] =
        .ok ([.Binary opLo (.Number n1) (.Binary opHi (.Number n2) (.Number n3))], []) := by
  refine ⟨⟨rfl, rfl, rfl, rfl, rfl, rfl, rfl, rfl, rfl, rfl, rfl, rfl, rfl, rfl, rfl⟩, ?_⟩
  intro f opLo opHi pLo pHi v1 v2 v3 n1 n2 n3 h1 h2 hp hlt hne1 hne2 hv1 hv2 hv3
  have hnp : ¬ pHi < pLo := not_lt_of_gt hlt
  simp [parseProgram, parse_toplevel, parse_expr, parse_atom, parse_atom_inner, maybe_call,
    maybe_binary, parse_call, parse_if, parse_func, parse_prog, parse_closure, parse_ext,
    parse_bool, parse_varname, parse_param, delimited, delimitedCore, skip_punc, skip_kw,
    skip_op, is_op, is_kw, is_punc, peek, nextTok, eofB, strHead,
    unexpectedErr, numTok, opTok, h1, h2, hp, hlt, hne1, hne2, hv1, hv2, hv3, hnp,
    lt_self_iff_false, hp.trans hlt]

/-- C4, witness for the second part of `precedence_table_honored` at
`1+2*3`. -/
theorem precedence_table_honored_witness :
    OP_PRECEDENCE.lookup "+" = some 10 ∧ OP_PRECEDENCE.lookup "*" = some 20 ∧
    (0 : Int) < 10 ∧ (10 : Int) < 20 ∧
    parseProgram 20 [numTok "1", opTok "+", numTok "2", opTok "*", numTok "3"] =
      .ok ([.Binary "+" (.Number 1) (.Binary "*" (.Number 2) (.Number 3))], []) :=
  ⟨rfl, rfl, by decide, by decide,
    precedence_table_honored.2 0 "+" "*" 10 20 "1" "2" "3" 1 2 3 rfl rfl (by decide)
      (by decide) (by decide) (by decide) rfl rfl rfl⟩

/-- C5: in every delimited list, a trailing separator immediately before
the closing delimiter is tolerated and adds no item: from a non-first
position, the loop of `delimited` gives the same result (the accumulated
items, stream advanced past the close) whether or not a separator token
precedes the closing token — for an arbitrary item parser, so this covers
parameter lists, call argument lists and brace-delimited blocks alike.
In particular `f(1,2,)` and `f(1,2)` both parse to
Call(Identifier(f), [1, 2]). -/
theorem trailing_separator_tolerated :
    (∀ (α : Type) (item : TState → PResult α) (endc sep : Char) (fuel : Nat)
        (acc : List α) (rest : TState), endc ≠ Char.ofNat 0 → sep ≠ endc →
      delimitedCore endc sep item fuel false acc
          (⟨"punc", sep.toString⟩ :: ⟨"punc", endc.toString⟩ :: rest) = .ok (acc, rest) ∧
      delimitedCore endc sep item fuel false acc
          (⟨"punc", endc.toString⟩ :: rest) = .ok (acc, rest)) ∧
    parseProgram 30 [varTok "f", puncTok "(", numTok "1", puncTok ",", numTok "2",
        puncTok ",", puncTok ")"] =
      .ok ([.Call (.Identifier "f") [.Number 1, .Number 2]], []) ∧
    parseProgram 30 [varTok "f", puncTok "(", numTok "1", puncTok ",", numTok "2",
        puncTok ")"] =
      .ok ([.Call (.Identifier "f") [.Number 1, .Number 2]], []) := by
  refine ⟨?_, rfl, rfl⟩
  intro α item endc sep fuel acc rest hend hsep
  have h3 : ∀ c : Char, strHead c.toString = c := by
    intro c; simp [strHead, Char.toString]
  constructor
  · rw [delimitedCore.eq_def]
    simp [eofB, is_punc, peek, nextTok, skip_punc, h3, hsep, hend]
  · rw [delimitedCore.eq_def]
    simp [eofB, is_punc, peek, nextTok, skip_punc, h3, hsep, hend]

/-- C5, witness for the first part of `trailing_separator_tolerated`,
instantiated at a `)`-closed `,`-separated argument list. -/
theorem trailing_separator_tolerated_witness :
    (')' ≠ Char.ofNat 0) ∧ (',' ≠ ')') ∧
    delimitedCore ')' ',' parse_varname 5 false [ "x" ]
        [⟨"punc", ','.toString⟩, ⟨"punc", ')'.toString⟩] = .ok (["x"], []) :=
  ⟨by decide, by decide,
    (trailing_separator_tolerated.1 String parse_varname ')' ',' 5 ["x"] []
      (by decide) (by decide)).1⟩

/-- C6: parsing an empty brace pair `{}` yields a null expression (not an
empty Program node); a non-empty sequence `{1;2;3}` yields
Program([1;2;3]); and in general a successful `parse_prog` returns either
the null expression or a Program node with a non-empty expression list
(so the produced block is non-null precisely when at least one expression
was parsed). -/
theorem empty_block_yields_null :
    (∀ (fuel : Nat) (rest : TState),
      parse_prog (fuel + 1) (⟨"punc", "\x7b"⟩ :: ⟨"punc", "\x7d"⟩ :: rest) = .ok (.nullE, rest)) ∧
    parse_prog 20 [puncTok "\x7b", numTok "1", puncTok ";", numTok "2", puncTok ";",
        numTok "3", puncTok "\x7d"] =
      .ok (.Program [.Number 1, .Number 2, .Number 3], []) ∧
    ∀ (fuel : Nat) (s : TState) (e : Expression) (s₁ : TState),
      parse_prog fuel s = .ok (e, s₁) →
      e = .nullE ∨ ∃ l, l ≠ [] ∧ e = .Program l := by
  refine ⟨?_, rfl, ?_⟩
  · intro fuel rest
    simp [parse_prog, delimited, delimitedCore, skip_punc, is_punc, peek, nextTok, eofB,
      strHead]
  · intro fuel s e s₁ h
    match fuel with
    | 0 => exact absurd h (by simp [parse_prog])
    | f + 1 =>
      simp only [parse_prog] at h
      cases hdel : delimited '{' '}' ';' (fun t => parse_expr f t) f s with
      | error e₁ =>
        rw [hdel] at h
        exact absurd h (by simp)
      | ok p =>
        obtain ⟨vars, s₂⟩ := p
        rw [hdel] at h
        by_cases hv : vars.isEmpty
        · left
          simp only [hv, if_true] at h
          injection h with h₁
          injection h₁ with h₂ h₃
          exact h₂.symm
        · right
          refine ⟨vars, by simpa using hv, ?_⟩
          simp only [hv, if_false] at h
          injection h with h₁
          injection h₁ with h₂ h₃
          exact h₂.symm

/-- C6, witness for `empty_block_yields_null` (third part) at `{}`. -/
theorem empty_block_yields_null_witness :
    parse_prog 5 [⟨"punc", "\x7b"⟩, ⟨"punc", "\x7d"⟩] = .ok (.nullE, []) ∧
    (Expression.nullE = .nullE ∨ ∃ l, l ≠ [] ∧ Expression.nullE = .Program l) :=
  ⟨rfl, empty_block_yields_null.2.2 5 [⟨"punc", "\x7b"⟩, ⟨"punc", "\x7d"⟩] .nullE [] rfl⟩

/-- C8: if the token stream ends while a delimited construct is still
open, the parse aborts with a fatal diagnostic and no AST is returned:
the loop of `delimited` at an exhausted stream always yields the fatal
missing-close diagnostic (for any item parser, so for parameter lists,
argument lists and blocks alike), `skip_punc` at an exhausted stream
(the grouped-expression case) likewise fails, and a concrete program
ending inside an open parameter list, `ext f(int x`, yields
`.error` rather than an AST. -/
theorem eof_in_open_construct_fatal :
    (∀ (α : Type) (item : TState → PResult α) (endc sep : Char) (fuel : Nat)
        (first : Bool) (acc : List α),
      delimitedCore endc sep item fuel first acc [] =
        .error (.diag ("Token '" ++ endc.toString ++ "' expected"))) ∧
    (∀ ch : Char, skip_punc ch [] =
        .error (.diag ("Token '" ++ ch.toString ++ "' expected"))) ∧
    parseProgram 30 [kwTok "ext", varTok "f", puncTok "(", varTok "int", varTok "x"] =
      .error (.diag "Token ')' expected") := by
  refine ⟨?_, ?_, rfl⟩
  · intro α item endc sep fuel first acc
    rw [delimitedCore.eq_def]
    simp [eofB, skip_punc, is_punc, peek]
  · intro ch
    simp [skip_punc, is_punc, peek]

set_option maxRecDepth 8000 in
set_option maxHeartbeats 1600000 in
/-- C9: the extern-declaration parser raises the fatal InvalidName
diagnostic ("Function name expected") whenever the token after `ext` is
not of identifier kind, while the function-definition parser performs no
such check: after `def`, a token of any kind whatsoever is accepted as
the function name. -/
theorem ext_name_checked_def_name_unchecked :
    (∀ (fuel : Nat) (ty v : String) (rest : TState), ty ≠ "var" →
      parse_ext fuel (⟨"kw", "ext"⟩ :: ⟨ty, v⟩ :: rest) =
        .error (.diag "Function name expected")) ∧
    ∀ (f : Nat) (ty v : String),
      parseProgram (f + 20) [kwTok "def", ⟨ty, v⟩, numTok "1"] =
        .ok ([.Function v [] (.Number 1)], []) := by
  constructor
  · intro fuel ty v rest h
    simp [parse_ext, skip_kw, is_kw, peek, nextTok, h]
  · intro f ty v
    have hin : parse_atom_inner (f + 13) [⟨"num", "1"⟩] = .ok (.Number 1, []) := by
      simp [parse_atom_inner, is_kw, is_punc, peek, nextTok,
        show stoi "1" = some 1 from rfl]
    have hat : parse_atom (f + 14) [⟨"num", "1"⟩] = .ok (.Number 1, []) := by
      simp [parse_atom, maybe_call, is_punc, peek, hin]
    have hex : parse_expr (f + 15) [⟨"num", "1"⟩] = .ok (.Number 1, []) := by
      simp [parse_expr, maybe_binary, maybe_call, is_op, is_punc, peek, hat]
    have hfn : parse_func (f + 16) [⟨"kw", "def"⟩, ⟨ty, v⟩, ⟨"num", "1"⟩] =
        .ok (.Function v [] (.Number 1), []) := by
      simp [parse_func, nextTok, is_punc, peek, hex]
    have hin2 : parse_atom_inner (f + 17) [⟨"kw", "def"⟩, ⟨ty, v⟩, ⟨"num", "1"⟩] =
        .ok (.Function v [] (.Number 1), []) := by
      simp [parse_atom_inner, is_kw, is_punc, peek, hfn]
    have hat2 : parse_atom (f + 18) [⟨"kw", "def"⟩, ⟨ty, v⟩, ⟨"num", "1"⟩] =
        .ok (.Function v [] (.Number 1), []) := by
      simp [parse_atom, maybe_call, is_punc, peek, hin2]
    have hex2 : parse_expr (f + 19) [⟨"kw", "def"⟩, ⟨ty, v⟩, ⟨"num", "1"⟩] =
        .ok (.Function v [] (.Number 1), []) := by
      simp [parse_expr, maybe_binary, maybe_call, is_op, is_punc, peek, hat2]
    simp [parseProgram, parse_toplevel, eofB, kwTok, numTok, hex2]

/-- C9, witness for `ext_name_checked_def_name_unchecked` at a
number-kind function-name token. -/
theorem ext_name_checked_def_name_unchecked_witness :
    ("num" ≠ "var") ∧
    parse_ext 5 [⟨"kw", "ext"⟩, ⟨"num", "123"⟩] = .error (.diag "Function name expected") ∧
    parseProgram 20 [kwTok "def", ⟨"num", "123"⟩, numTok "1"] =
      .ok ([.Function "123" [] (.Number 1)], []) :=
  ⟨by decide,
    ext_name_checked_def_name_unchecked.1 5 "num" "123" [] (by decide),
    ext_name_checked_def_name_unchecked.2 0 "num" "123"⟩

/-! Stream-suffix lemmas: every parsing function returns a suffix of its
input stream.  These feed the stream-invariant arguments below. -/

/-- Advancing past one token yields a suffix of the stream. -/
theorem nextTok_suffix (s : TState) : (nextTok s).2 <:+ s := by
  cases s with
  | nil => simp [nextTok]
  | cons t ts => exact List.suffix_cons t ts

/-- A successful `skip_punc` returns a suffix of the stream. -/
theorem skip_punc_suffix {ch : Char} {s s₁ : TState} (h : skip_punc ch s = .ok s₁) :
    s₁ <:+ s := by
  unfold skip_punc at h
  split at h
  · injection h with h'
    exact h' ▸ nextTok_suffix s
  · exact absurd h (by simp)

/-- A successful `skip_kw` returns a suffix of the stream. -/
theorem skip_kw_suffix {kw : String} {s s₁ : TState} (h : skip_kw kw s = .ok s₁) :
    s₁ <:+ s := by
  unfold skip_kw at h
  split at h
  · injection h with h'
    exact h' ▸ nextTok_suffix s
  · exact absurd h (by simp)

/-- `parse_bool` returns a suffix of the stream. -/
theorem parse_bool_suffix {s : TState} {e : Expression} {s₁ : TState}
    (h : parse_bool s = .ok (e, s₁)) : s₁ <:+ s := by
  unfold parse_bool at h
  injection h with h'
  injection h' with h₁ h₂
  exact h₂ ▸ nextTok_suffix s

/-- A successful `parse_varname` returns a suffix of the stream. -/
theorem parse_varname_suffix {s : TState} {v : String} {s₁ : TState}
    (h : parse_varname s = .ok (v, s₁)) : s₁ <:+ s := by
  simp only [parse_varname] at h
  split at h
  · exact absurd h (by simp)
  · injection h with h'
    injection h' with h₁ h₂
    exact h₂ ▸ nextTok_suffix s

/-- A successful `parse_param` returns a suffix of the stream. -/
theorem parse_param_suffix {s : TState} {p : Parameter} {s₁ : TState}
    (h : parse_param s = .ok (p, s₁)) : s₁ <:+ s := by
  simp only [parse_param] at h
  split at h
  · exact absurd h (by simp)
  · split at h
    · split at h
      · exact absurd h (by simp)
      · injection h with h'
        injection h' with h₁ h₂
        exact h₂ ▸ (nextTok_suffix (nextTok s).2).trans (nextTok_suffix s)
    · injection h with h'
      injection h' with h₁ h₂
      exact h₂ ▸ nextTok_suffix s

/-- One unfolding of the loop of `delimited`, stated with its arguments
in place (the autogenerated equation introduces fresh pattern variables
that make case analysis awkward). -/
theorem delimitedCore_unfold {α : Type} (endc sep : Char) (item : TState → PResult α)
    (fuel : Nat) (first : Bool) (acc : List α) (s : TState) :
    delimitedCore endc sep item fuel first acc s =
      if eofB s then
        match skip_punc endc s with
        | .error e => .error e
        | .ok s₁ => .ok (acc, s₁)
      else if is_punc endc s then
        match skip_punc endc s with
        | .error e => .error e
        | .ok s₁ => .ok (acc, s₁)
      else
        match (if first then Except.ok s else skip_punc sep s) with
        | .error e => .error e
        | .ok s₁ =>
          if is_punc endc s₁ then
            match skip_punc endc s₁ with
            | .error e => .error e
            | .ok s₂ => .ok (acc, s₂)
          else
            match item s₁ with
            | .error e => .error e
            | .ok (x, s₂) =>
              match fuel with
              | 0 => .error .outOfFuel
              | f + 1 => delimitedCore endc sep item f false (acc ++ [x]) s₂ := by
  rw [delimitedCore.eq_def]

/-- The loop of `delimited` returns a suffix of the stream, provided the
item parser does. -/
theorem delimitedCore_suffix {α : Type} {endc sep : Char} {item : TState → PResult α}
    (hitem : ∀ s x s₁, item s = .ok (x, s₁) → s₁ <:+ s) :
    ∀ (fuel : Nat) (first : Bool) (acc : List α) (s : TState) (l : List α) (s₁ : TState),
      delimitedCore endc sep item fuel first acc s = .ok (l, s₁) → s₁ <:+ s := by
  intro fuel
  induction fuel with
  | zero =>
    intro first acc s l s₁ h
    rw [delimitedCore_unfold] at h
    split at h
    · split at h
      · exact absurd h (by simp)
      · injection h with h'
        injection h' with h₁ h₂
        exact h₂ ▸ skip_punc_suffix (by assumption)
    · split at h
      · split at h
        · exact absurd h (by simp)
        · injection h with h'
          injection h' with h₁ h₂
          exact h₂ ▸ skip_punc_suffix (by assumption)
      · split at h
        · exact absurd h (by simp)
        · rename_i s₂ hsep
          have hs₂ : s₂ <:+ s := by
            split at hsep
            · injection hsep with h'
              exact h' ▸ List.suffix_refl s
            · exact skip_punc_suffix hsep
          split at h
          · split at h
            · exact absurd h (by simp)
            · injection h with h'
              injection h' with h₁ h₂
              subst h₂
              exact (skip_punc_suffix (by assumption)).trans hs₂
          · split at h
            · exact absurd h (by simp)
            · exact absurd h (by simp)
  | succ g ih =>
    intro first acc s l s₁ h
    rw [delimitedCore_unfold] at h
    split at h
    · split at h
      · exact absurd h (by simp)
      · injection h with h'
        injection h' with h₁ h₂
        exact h₂ ▸ skip_punc_suffix (by assumption)
    · split at h
      · split at h
        · exact absurd h (by simp)
        · injection h with h'
          injection h' with h₁ h₂
          exact h₂ ▸ skip_punc_suffix (by assumption)
      · split at h
        · exact absurd h (by simp)
        · rename_i s₂ hsep
          have hs₂ : s₂ <:+ s := by
            split at hsep
            · injection hsep with h'
              exact h' ▸ List.suffix_refl s
            · exact skip_punc_suffix hsep
          split at h
          · split at h
            · exact absurd h (by simp)
            · injection h with h'
              injection h' with h₁ h₂
              subst h₂
              exact (skip_punc_suffix (by assumption)).trans hs₂
          · split at h
            · exact absurd h (by simp)
            · rename_i x s₃ hx
              exact ((ih _ _ _ _ _ h).trans (hitem _ _ _ hx)).trans hs₂

/-- `delimited` returns a suffix of the stream, provided the item parser
does. -/
theorem delimited_suffix {α : Type} {startc endc sep : Char} {item : TState → PResult α}
    (hitem : ∀ s x s₁, item s = .ok (x, s₁) → s₁ <:+ s)
    {fuel : Nat} {s : TState} {l : List α} {s₁ : TState}
    (h : delimited startc endc sep item fuel s = .ok (l, s₁)) : s₁ <:+ s := by
  unfold delimited at h
  split at h
  · exact absurd h (by simp)
  · exact (delimitedCore_suffix hitem _ _ _ _ _ _ h).trans (skip_punc_suffix (by assumption))

/-- A successful `parse_ext` returns a suffix of the stream. -/
theorem parse_ext_suffix {fuel : Nat} {s : TState} {e : Expression} {s₁ : TState}
    (h : parse_ext fuel s = .ok (e, s₁)) : s₁ <:+ s := by
  simp only [parse_ext] at h
  split at h
  · exact absurd h (by simp)
  · rename_i s₂ hkw
    split at h
    · exact absurd h (by simp)
    · split at h
      · exact absurd h (by simp)
      · rename_i params s₃ hd
        injection h with h'
        injection h' with h₁ h₂
        subst h₂
        exact ((delimited_suffix (fun s x s₁ => parse_param_suffix) hd).trans
          (nextTok_suffix s₂)).trans (skip_kw_suffix hkw)

/-- Every parsing function of the mutual block returns, on success, a
suffix of its input token stream (the parser only ever consumes from the
front of the stream). -/
theorem parser_ok_suffix : ∀ fuel : Nat,
    (∀ left prec s e s₁, maybe_binary fuel left prec s = .ok (e, s₁) → s₁ <:+ s) ∧
    (∀ func s e s₁, parse_call fuel func s = .ok (e, s₁) → s₁ <:+ s) ∧
    (∀ r s e s₁, maybe_call fuel r s = .ok (e, s₁) → s₁ <:+ s) ∧
    (∀ s e s₁, parse_if fuel s = .ok (e, s₁) → s₁ <:+ s) ∧
    (∀ s e s₁, parse_closure fuel s = .ok (e, s₁) → s₁ <:+ s) ∧
    (∀ s e s₁, parse_func fuel s = .ok (e, s₁) → s₁ <:+ s) ∧
    (∀ s e s₁, parse_atom_inner fuel s = .ok (e, s₁) → s₁ <:+ s) ∧
    (∀ s e s₁, parse_atom fuel s = .ok (e, s₁) → s₁ <:+ s) ∧
    (∀ s e s₁, parse_expr fuel s = .ok (e, s₁) → s₁ <:+ s) ∧
    (∀ s e s₁, parse_prog fuel s = .ok (e, s₁) → s₁ <:+ s) := by
  intro fuel
  induction fuel with
  | zero =>
    refine ⟨fun left prec s e s₁ h => ?_, fun func s e s₁ h => ?_, fun r s e s₁ h => ?_,
      fun s e s₁ h => ?_, fun s e s₁ h => ?_, fun s e s₁ h => ?_, fun s e s₁ h => ?_,
      fun s e s₁ h => ?_, fun s e s₁ h => ?_, fun s e s₁ h => ?_⟩
    · simp [maybe_binary] at h
    · simp [parse_call] at h
    · simp [maybe_call] at h
    · simp [parse_if] at h
    · simp [parse_closure] at h
    · simp [parse_func] at h
    · simp [parse_atom_inner] at h
    · simp [parse_atom] at h
    · simp [parse_expr] at h
    · simp [parse_prog] at h
  | succ f ih =>
    obtain ⟨ihmb, ihpc, ihmc, ihif, ihcl, ihfn, ihai, ihat, ihex, ihpr⟩ := ih
    have hmb : ∀ left prec s e s₁, maybe_binary (f + 1) left prec s = .ok (e, s₁) →
        s₁ <:+ s := by
      intro left prec s e s₁ h
      simp only [maybe_binary] at h
      split at h
      · split at h
        · exact absurd h (by simp)
        · rename_i tokprec hlk
          split at h
          · split at h
            · exact absurd h (by simp)
            · rename_i atom s₂ hpa
              split at h
              · exact absurd h (by simp)
              · rename_i right s₃ hmbr
                have h1 : s₂ <:+ s := (ihat _ _ _ hpa).trans (nextTok_suffix s)
                have h2 : s₃ <:+ s := (ihmb _ _ _ _ _ hmbr).trans h1
                split at h
                · exact (ihmb _ _ _ _ _ h).trans h2
                · exact (ihmb _ _ _ _ _ h).trans h2
          · injection h with h₀
            injection h₀ with h₁ h₂
            exact h₂ ▸ List.suffix_refl s
      · injection h with h₀
        injection h₀ with h₁ h₂
        exact h₂ ▸ List.suffix_refl s
    have hpc : ∀ func s e s₁, parse_call (f + 1) func s = .ok (e, s₁) → s₁ <:+ s := by
      intro func s e s₁ h
      simp only [parse_call] at h
      split at h
      · exact absurd h (by simp)
      · rename_i args s₂ hd
        injection h with h₀
        injection h₀ with h₁ h₂
        subst h₂
        exact delimited_suffix (fun s x s₁ hx => ihex _ _ _ hx) hd
    have hmc : ∀ r s e s₁, maybe_call (f + 1) r s = .ok (e, s₁) → s₁ <:+ s := by
      intro r s e s₁ h
      simp only [maybe_call] at h
      split at h
      · exact ihpc _ _ _ _ h
      · injection h with h₀
        injection h₀ with h₁ h₂
        exact h₂ ▸ List.suffix_refl s
    have hif : ∀ s e s₁, parse_if (f + 1) s = .ok (e, s₁) → s₁ <:+ s := by
      intro s e s₁ h
      simp only [parse_if] at h
      split at h
      · exact absurd h (by simp)
      · rename_i s₂ hkw
        split at h
        · exact absurd h (by simp)
        · rename_i cond s₃ hc
          split at h
          · exact absurd h (by simp)
          · rename_i thenB s₄ ht
            have hch : s₄ <:+ s :=
              ((ihex _ _ _ ht).trans (ihex _ _ _ hc)).trans (skip_kw_suffix hkw)
            split at h
            · split at h
              · exact absurd h (by simp)
              · rename_i elsB s₅ he
                injection h with h₀
                injection h₀ with h₁ h₂
                subst h₂
                exact ((ihex _ _ _ he).trans (nextTok_suffix s₄)).trans hch
            · injection h with h₀
              injection h₀ with h₁ h₂
              subst h₂
              exact hch
    have hcl : ∀ s e s₁, parse_closure (f + 1) s = .ok (e, s₁) → s₁ <:+ s := by
      intro s e s₁ h
      simp only [parse_closure] at h
      split at h
      · exact absurd h (by simp)
      · rename_i params s₂ hd
        split at h
        · exact absurd h (by simp)
        · rename_i body s₃ hp
          injection h with h₀
          injection h₀ with h₁ h₂
          subst h₂
          exact (ihpr _ _ _ hp).trans
            (delimited_suffix (fun s x s₁ hx => parse_varname_suffix hx) hd)
    have hfn : ∀ s e s₁, parse_func (f + 1) s = .ok (e, s₁) → s₁ <:+ s := by
      intro s e s₁ h
      simp only [parse_func] at h
      split at h
      · exact absurd h (by simp)
      · rename_i params s₃ hps
        split at h
        · exact absurd h (by simp)
        · rename_i body s₄ hb
          injection h with h₀
          injection h₀ with h₁ h₂
          subst h₂
          have hs₃ : s₃ <:+ s := by
            have htail : (nextTok (nextTok s).2).2 <:+ s :=
              (nextTok_suffix (nextTok s).2).trans (nextTok_suffix s)
            split at hps
            · exact (delimited_suffix (fun s x s₁ hx => parse_param_suffix hx) hps).trans
                htail
            · injection hps with h₀
              injection h₀ with ha hb
              exact hb ▸ htail
          exact (ihex _ _ _ hb).trans hs₃
    have hai : ∀ s e s₁, parse_atom_inner (f + 1) s = .ok (e, s₁) → s₁ <:+ s := by
      intro s e s₁ h
      simp only [parse_atom_inner] at h
      by_cases c1 : is_kw "ext" s = true
      · simp only [c1, Bool.false_eq_true, eq_self_iff_true, if_true, if_false] at h
        exact parse_ext_suffix h
      · simp only [c1, Bool.false_eq_true, eq_self_iff_true, if_true, if_false] at h
        by_cases c2 : is_kw "def" s = true
        · simp only [c2, Bool.false_eq_true, eq_self_iff_true, if_true, if_false] at h
          exact ihfn _ _ _ h
        · simp only [c2, Bool.false_eq_true, eq_self_iff_true, if_true, if_false] at h
          by_cases c3 : is_punc '(' s = true
          · simp only [c3, Bool.false_eq_true, eq_self_iff_true, if_true, if_false] at h
            split at h
            · exact absurd h (by simp)
            · rename_i expr s₂ hx
              split at h
              · exact absurd h (by simp)
              · rename_i s₃ hsp
                injection h with h₀
                injection h₀ with h₁ h₂
                subst h₂
                exact (skip_punc_suffix hsp).trans ((ihex _ _ _ hx).trans (nextTok_suffix s))
          · simp only [c3, Bool.false_eq_true, eq_self_iff_true, if_true, if_false] at h
            by_cases c4 : is_punc '{' s = true
            · simp only [c4, Bool.false_eq_true, eq_self_iff_true, if_true, if_false] at h
              exact ihpr _ _ _ h
            · simp only [c4, Bool.false_eq_true, eq_self_iff_true, if_true, if_false] at h
              by_cases c5 : is_kw "if" s = true
              · simp only [c5, Bool.false_eq_true, eq_self_iff_true, if_true, if_false] at h
                exact ihif _ _ _ h
              · simp only [c5, Bool.false_eq_true, eq_self_iff_true, if_true, if_false] at h
                by_cases c6 : (is_kw "true" s || is_kw "false" s) = true
                · simp only [c6, Bool.false_eq_true, eq_self_iff_true, if_true, if_false] at h
                  exact parse_bool_suffix h
                · simp only [c6, Bool.false_eq_true, eq_self_iff_true, if_true, if_false] at h
                  by_cases c7 : is_kw "cls" s = true
                  · simp only [c7, Bool.false_eq_true, eq_self_iff_true, if_true, if_false] at h
                    exact (ihcl _ _ _ h).trans (nextTok_suffix s)
                  · simp only [c7, Bool.false_eq_true, eq_self_iff_true, if_true, if_false] at h
                    split at h
                    · injection h with h₀
                      injection h₀ with h₁ h₂
                      exact h₂ ▸ nextTok_suffix s
                    · split at h
                      · split at h
                        · injection h with h₀
                          injection h₀ with h₁ h₂
                          exact h₂ ▸ nextTok_suffix s
                        · exact absurd h (by simp)
                      · split at h
                        · injection h with h₀
                          injection h₀ with h₁ h₂
                          exact h₂ ▸ nextTok_suffix s
                        · split at h
                          · injection h with h₀
                            injection h₀ with h₁ h₂
                            exact h₂ ▸ nextTok_suffix s
                          · exact absurd h (by simp)
    have hat : ∀ s e s₁, parse_atom (f + 1) s = .ok (e, s₁) → s₁ <:+ s := by
      intro s e s₁ h
      simp only [parse_atom] at h
      split at h
      · exact absurd h (by simp)
      · rename_i e₂ s₂ hi
        exact (ihmc _ _ _ _ h).trans (ihai _ _ _ hi)
    have hex : ∀ s e s₁, parse_expr (f + 1) s = .ok (e, s₁) → s₁ <:+ s := by
      intro s e s₁ h
      simp only [parse_expr] at h
      split at h
      · exact absurd h (by simp)
      · rename_i a s₂ ha
        split at h
        · exact absurd h (by simp)
        · rename_i e₂ s₃ hb
          exact ((ihmc _ _ _ _ h).trans (ihmb _ _ _ _ _ hb)).trans (ihat _ _ _ ha)
    have hpr : ∀ s e s₁, parse_prog (f + 1) s = .ok (e, s₁) → s₁ <:+ s := by
      intro s e s₁ h
      simp only [parse_prog] at h
      split at h
      · exact absurd h (by simp)
      · rename_i vars s₂ hd
        have hsd : s₂ <:+ s := delimited_suffix (fun s x s₁ hx => ihex _ _ _ hx) hd
        split at h
        · injection h with h₀
          injection h₀ with h₁ h₂
          exact h₂ ▸ hsd
        · injection h with h₀
          injection h₀ with h₁ h₂
          exact h₂ ▸ hsd
    exact ⟨hmb, hpc, hmc, hif, hcl, hfn, hai, hat, hex, hpr⟩

/-! Machinery for C10: under the precondition that every operator-kind
token carries a text present in `OP_PRECEDENCE`, the unguarded map access
of `maybe_binary` can never fail. -/


/-- The table precondition restricts to suffixes of the stream. -/
theorem opsInTable_suffix {s t : TState} (h : opsInTable s = true) (hsuf : t <:+ s) :
    opsInTable t = true := by
  simp only [opsInTable, List.all_eq_true] at h ⊢
  intro x hx
  exact h x (hsuf.subset hx)

/-- A stream accepted by `is_op ""` starts with an operator-kind token. -/
theorem is_op_any {s : TState} (h : is_op "" s = true) :
    ∃ t ts, s = t :: ts ∧ t.type = "op" := by
  cases s with
  | nil => simp [is_op, peek] at h
  | cons t ts =>
    simp only [is_op, peek, Bool.and_eq_true, beq_iff_eq] at h
    exact ⟨t, ts, rfl, h.1.2⟩

/-- Under the table precondition, the head operator of the stream has a
table precedence. -/
theorem opsInTable_head {t : Token} {ts : TState} (h : opsInTable (t :: ts) = true)
    (hop : t.type = "op") : (OP_PRECEDENCE.lookup t.value).isSome = true := by
  simp only [opsInTable, List.all_cons, Bool.and_eq_true] at h
  rcases Bool.or_eq_true_iff.mp h.1 with h' | h'
  · simp [hop] at h'
  · exact h'

/-- `skip_punc` never raises the map-access failure. -/
theorem skip_punc_not_atFail (ch : Char) (s : TState) :
    skip_punc ch s ≠ .error .mapAtFail := by
  unfold skip_punc
  split <;> simp

/-- `skip_kw` never raises the map-access failure. -/
theorem skip_kw_not_atFail (kw : String) (s : TState) :
    skip_kw kw s ≠ .error .mapAtFail := by
  unfold skip_kw
  split <;> simp

/-- `parse_bool` never raises the map-access failure. -/
theorem parse_bool_not_atFail (s : TState) : parse_bool s ≠ .error .mapAtFail := by
  simp [parse_bool]

/-- `parse_varname` never raises the map-access failure. -/
theorem parse_varname_not_atFail (s : TState) : parse_varname s ≠ .error .mapAtFail := by
  simp only [parse_varname]
  split <;> simp

/-- `parse_param` never raises the map-access failure. -/
theorem parse_param_not_atFail (s : TState) : parse_param s ≠ .error .mapAtFail := by
  simp only [parse_param]
  split
  · simp
  · split
    · split <;> simp
    · simp

/-- The loop of `delimited` never raises the map-access failure when its
item parser cannot, under a suffix-closed stream precondition. -/
theorem delimitedCore_not_atFail {α : Type} {endc sep : Char} {item : TState → PResult α}
    {P : TState → Prop}
    (hP : ∀ {u t : TState}, P u → t <:+ u → P t)
    (hsuf : ∀ s x s₁, item s = .ok (x, s₁) → s₁ <:+ s)
    (hitem : ∀ s, P s → item s ≠ .error .mapAtFail) :
    ∀ (fuel : Nat) (first : Bool) (acc : List α) (s : TState), P s →
      delimitedCore endc sep item fuel first acc s ≠ .error .mapAtFail := by
  intro fuel
  induction fuel with
  | zero =>
    intro first acc s hp h
    rw [delimitedCore_unfold] at h
    split at h
    · split at h
      · rename_i e' hsp
        injection h with h₀
        subst h₀
        exact skip_punc_not_atFail _ _ hsp
      · exact absurd h (by simp)
    · split at h
      · split at h
        · rename_i e' hsp
          injection h with h₀
          subst h₀
          exact skip_punc_not_atFail _ _ hsp
        · exact absurd h (by simp)
      · split at h
        · rename_i e' hsep
          injection h with h₀
          subst h₀
          split at hsep
          · exact absurd hsep (by simp)
          · exact skip_punc_not_atFail _ _ hsep
        · rename_i s₂ hsep
          split at h
          · split at h
            · rename_i e' hsp
              injection h with h₀
              subst h₀
              exact skip_punc_not_atFail _ _ hsp
            · exact absurd h (by simp)
          · split at h
            · rename_i e' hx
              injection h with h₀
              subst h₀
              have hs₂ : s₂ <:+ s := by
                split at hsep
                · injection hsep with h₀
                  exact h₀ ▸ List.suffix_refl s
                · exact skip_punc_suffix hsep
              exact hitem s₂ (hP hp hs₂) hx
            · exact absurd h (by simp)
  | succ g ih =>
    intro first acc s hp h
    rw [delimitedCore_unfold] at h
    split at h
    · split at h
      · rename_i e' hsp
        injection h with h₀
        subst h₀
        exact skip_punc_not_atFail _ _ hsp
      · exact absurd h (by simp)
    · split at h
      · split at h
        · rename_i e' hsp
          injection h with h₀
          subst h₀
          exact skip_punc_not_atFail _ _ hsp
        · exact absurd h (by simp)
      · split at h
        · rename_i e' hsep
          injection h with h₀
          subst h₀
          split at hsep
          · exact absurd hsep (by simp)
          · exact skip_punc_not_atFail _ _ hsep
        · rename_i s₂ hsep
          have hs₂ : s₂ <:+ s := by
            split at hsep
            · injection hsep with h₀
              exact h₀ ▸ List.suffix_refl s
            · exact skip_punc_suffix hsep
          split at h
          · split at h
            · rename_i e' hsp
              injection h with h₀
              subst h₀
              exact skip_punc_not_atFail _ _ hsp
            · exact absurd h (by simp)
          · split at h
            · rename_i e' hx
              injection h with h₀
              subst h₀
              exact hitem s₂ (hP hp hs₂) hx
            · rename_i x s₃ hx
              exact ih false (acc ++ [x]) s₃
                (hP hp ((hsuf _ _ _ hx).trans hs₂)) h

/-- `delimited` never raises the map-access failure when its item parser
cannot, under a suffix-closed stream precondition. -/
theorem delimited_not_atFail {α : Type} {startc endc sep : Char} {item : TState → PResult α}
    {P : TState → Prop}
    (hP : ∀ {u t : TState}, P u → t <:+ u → P t)
    (hsuf : ∀ s x s₁, item s = .ok (x, s₁) → s₁ <:+ s)
    (hitem : ∀ s, P s → item s ≠ .error .mapAtFail)
    {fuel : Nat} {s : TState} (hp : P s) :
    delimited startc endc sep item fuel s ≠ .error .mapAtFail := by
  intro h
  unfold delimited at h
  split at h
  · rename_i e' hsp
    injection h with h₀
    subst h₀
    exact skip_punc_not_atFail _ _ hsp
  · rename_i s₁ hsp
    exact delimitedCore_not_atFail hP hsuf hitem _ _ _ _
      (hP hp (skip_punc_suffix hsp)) h

/-- `parse_ext` never raises the map-access failure. -/
theorem parse_ext_not_atFail (fuel : Nat) (s : TState) :
    parse_ext fuel s ≠ .error .mapAtFail := by
  intro h
  simp only [parse_ext] at h
  split at h
  · rename_i e' hkw
    injection h with h₀
    subst h₀
    exact skip_kw_not_atFail _ _ hkw
  · split at h
    · exact absurd h (by simp)
    · split at h
      · rename_i e' hd
        injection h with h₀
        subst h₀
        exact delimited_not_atFail (P := fun _ => True) (fun _ _ => trivial)
          (fun s x s₁ hx => parse_param_suffix hx)
          (fun s _ => parse_param_not_atFail s) trivial hd
      · exact absurd h (by simp)

/-- Under the precondition that the token source emits only operators
present in the table, no parsing function of the mutual block can raise
the map-access failure of `OP_PRECEDENCE.at`. -/
theorem parser_not_atFail : ∀ fuel : Nat,
    (∀ left prec s, opsInTable s = true → maybe_binary fuel left prec s ≠ .error .mapAtFail) ∧
    (∀ func s, opsInTable s = true → parse_call fuel func s ≠ .error .mapAtFail) ∧
    (∀ r s, opsInTable s = true → maybe_call fuel r s ≠ .error .mapAtFail) ∧
    (∀ s, opsInTable s = true → parse_if fuel s ≠ .error .mapAtFail) ∧
    (∀ s, opsInTable s = true → parse_closure fuel s ≠ .error .mapAtFail) ∧
    (∀ s, opsInTable s = true → parse_func fuel s ≠ .error .mapAtFail) ∧
    (∀ s, opsInTable s = true → parse_atom_inner fuel s ≠ .error .mapAtFail) ∧
    (∀ s, opsInTable s = true → parse_atom fuel s ≠ .error .mapAtFail) ∧
    (∀ s, opsInTable s = true → parse_expr fuel s ≠ .error .mapAtFail) ∧
    (∀ s, opsInTable s = true → parse_prog fuel s ≠ .error .mapAtFail) := by
  intro fuel
  induction fuel with
  | zero =>
    refine ⟨fun left prec s hp h => ?_, fun func s hp h => ?_, fun r s hp h => ?_,
      fun s hp h => ?_, fun s hp h => ?_, fun s hp h => ?_, fun s hp h => ?_,
      fun s hp h => ?_, fun s hp h => ?_, fun s hp h => ?_⟩
    · simp [maybe_binary] at h
    · simp [parse_call] at h
    · simp [maybe_call] at h
    · simp [parse_if] at h
    · simp [parse_closure] at h
    · simp [parse_func] at h
    · simp [parse_atom_inner] at h
    · simp [parse_atom] at h
    · simp [parse_expr] at h
    · simp [parse_prog] at h
  | succ f ih =>
    obtain ⟨ihmb, ihpc, ihmc, ihif, ihcl, ihfn, ihai, ihat, ihex, ihpr⟩ := ih
    obtain ⟨smb, spc, smc, sif, scl, sfn, sai, sat, sex, spr⟩ := parser_ok_suffix f
    have hmb : ∀ left prec s, opsInTable s = true →
        maybe_binary (f + 1) left prec s ≠ .error .mapAtFail := by
      intro left prec s hp h
      simp only [maybe_binary] at h
      split at h
      · rename_i hop
        split at h
        · rename_i hlk
          obtain ⟨t, ts, rfl, hty⟩ := is_op_any hop
          have hsome := opsInTable_head hp hty
          rw [show peek (t :: ts) = t from rfl] at hlk
          rw [hlk] at hsome
          simp at hsome
        · rename_i tokprec hlk
          split at h
          · split at h
            · rename_i e' hpa
              injection h with h₀
              subst h₀
              exact ihat _ (opsInTable_suffix hp (nextTok_suffix s)) hpa
            · rename_i atom s₂ hpa
              split at h
              · rename_i e' hmbr
                injection h with h₀
                subst h₀
                exact ihmb _ _ _
                  (opsInTable_suffix hp ((sat _ _ _ hpa).trans (nextTok_suffix s))) hmbr
              · rename_i right s₃ hmbr
                have hp₃ : opsInTable s₃ = true :=
                  opsInTable_suffix hp (((smb _ _ _ _ _ hmbr).trans
                    (sat _ _ _ hpa)).trans (nextTok_suffix s))
                split at h
                · exact ihmb _ _ _ hp₃ h
                · exact ihmb _ _ _ hp₃ h
          · exact absurd h (by simp)
      · exact absurd h (by simp)
    have hpc : ∀ func s, opsInTable s = true →
        parse_call (f + 1) func s ≠ .error .mapAtFail := by
      intro func s hp h
      simp only [parse_call] at h
      split at h
      · rename_i e' hd
        injection h with h₀
        subst h₀
        exact delimited_not_atFail (P := fun u => opsInTable u = true)
          (fun hu ht => opsInTable_suffix hu ht)
          (fun s x s₁ hx => sex _ _ _ hx)
          (fun u hu => ihex u hu) hp hd
      · exact absurd h (by simp)
    have hmc : ∀ r s, opsInTable s = true →
        maybe_call (f + 1) r s ≠ .error .mapAtFail := by
      intro r s hp h
      simp only [maybe_call] at h
      split at h
      · exact ihpc _ _ hp h
      · exact absurd h (by simp)
    have hif : ∀ s, opsInTable s = true → parse_if (f + 1) s ≠ .error .mapAtFail := by
      intro s hp h
      simp only [parse_if] at h
      split at h
      · rename_i e' hkw
        injection h with h₀
        subst h₀
        exact skip_kw_not_atFail _ _ hkw
      · rename_i s₂ hkw
        have hp₂ : opsInTable s₂ = true := opsInTable_suffix hp (skip_kw_suffix hkw)
        split at h
        · rename_i e' hc
          injection h with h₀
          subst h₀
          exact ihex _ hp₂ hc
        · rename_i cond s₃ hc
          have hp₃ : opsInTable s₃ = true := opsInTable_suffix hp₂ (sex _ _ _ hc)
          split at h
          · rename_i e' ht
            injection h with h₀
            subst h₀
            exact ihex _ hp₃ ht
          · rename_i thenB s₄ ht
            have hp₄ : opsInTable s₄ = true := opsInTable_suffix hp₃ (sex _ _ _ ht)
            split at h
            · split at h
              · rename_i e' he
                injection h with h₀
                subst h₀
                exact ihex _ (opsInTable_suffix hp₄ (nextTok_suffix s₄)) he
              · exact absurd h (by simp)
            · exact absurd h (by simp)
    have hcl : ∀ s, opsInTable s = true → parse_closure (f + 1) s ≠ .error .mapAtFail := by
      intro s hp h
      simp only [parse_closure] at h
      split at h
      · rename_i e' hd
        injection h with h₀
        subst h₀
        exact delimited_not_atFail (P := fun _ => True) (fun _ _ => trivial)
          (fun s x s₁ hx => parse_varname_suffix hx)
          (fun u _ => parse_varname_not_atFail u) trivial hd
      · rename_i params s₂ hd
        have hp₂ : opsInTable s₂ = true := opsInTable_suffix hp
          (delimited_suffix (fun s x s₁ hx => parse_varname_suffix hx) hd)
        split at h
        · rename_i e' hpr'
          injection h with h₀
          subst h₀
          exact ihpr _ hp₂ hpr'
        · exact absurd h (by simp)
    have hfn : ∀ s, opsInTable s = true → parse_func (f + 1) s ≠ .error .mapAtFail := by
      intro s hp h
      simp only [parse_func] at h
      have htail : (nextTok (nextTok s).2).2 <:+ s :=
        (nextTok_suffix (nextTok s).2).trans (nextTok_suffix s)
      split at h
      · rename_i e' hps
        injection h with h₀
        subst h₀
        split at hps
        · exact delimited_not_atFail (P := fun _ => True) (fun _ _ => trivial)
            (fun s x s₁ hx => parse_param_suffix hx)
            (fun u _ => parse_param_not_atFail u) trivial hps
        · exact absurd hps (by simp)
      · rename_i params s₃ hps
        have hs₃ : s₃ <:+ s := by
          split at hps
          · exact (delimited_suffix (fun s x s₁ hx => parse_param_suffix hx) hps).trans htail
          · injection hps with h₀
            injection h₀ with ha hb
            exact hb ▸ htail
        split at h
        · rename_i e' hb
          injection h with h₀
          subst h₀
          exact ihex _ (opsInTable_suffix hp hs₃) hb
        · exact absurd h (by simp)
    have hai : ∀ s, opsInTable s = true → parse_atom_inner (f + 1) s ≠ .error .mapAtFail := by
      intro s hp h
      simp only [parse_atom_inner] at h
      by_cases c1 : is_kw "ext" s = true
      · simp only [c1, Bool.false_eq_true, eq_self_iff_true, if_true, if_false] at h
        exact parse_ext_not_atFail _ _ h
      · simp only [c1, Bool.false_eq_true, eq_self_iff_true, if_true, if_false] at h
        by_cases c2 : is_kw "def" s = true
        · simp only [c2, Bool.false_eq_true, eq_self_iff_true, if_true, if_false] at h
          exact ihfn _ hp h
        · simp only [c2, Bool.false_eq_true, eq_self_iff_true, if_true, if_false] at h
          by_cases c3 : is_punc '(' s = true
          · simp only [c3, Bool.false_eq_true, eq_self_iff_true, if_true, if_false] at h
            split at h
            · rename_i e' hx
              injection h with h₀
              subst h₀
              exact ihex _ (opsInTable_suffix hp (nextTok_suffix s)) hx
            · rename_i expr s₂ hx
              split at h
              · rename_i e' hsp
                injection h with h₀
                subst h₀
                exact skip_punc_not_atFail _ _ hsp
              · exact absurd h (by simp)
          · simp only [c3, Bool.false_eq_true, eq_self_iff_true, if_true, if_false] at h
            by_cases c4 : is_punc '{' s = true
            · simp only [c4, Bool.false_eq_true, eq_self_iff_true, if_true, if_false] at h
              exact ihpr _ hp h
            · simp only [c4, Bool.false_eq_true, eq_self_iff_true, if_true, if_false] at h
              by_cases c5 : is_kw "if" s = true
              · simp only [c5, Bool.false_eq_true, eq_self_iff_true, if_true, if_false] at h
                exact ihif _ hp h
              · simp only [c5, Bool.false_eq_true, eq_self_iff_true, if_true, if_false] at h
                by_cases c6 : (is_kw "true" s || is_kw "false" s) = true
                · simp only [c6, Bool.false_eq_true, eq_self_iff_true, if_true, if_false] at h
                  exact parse_bool_not_atFail _ h
                · simp only [c6, Bool.false_eq_true, eq_self_iff_true, if_true, if_false] at h
                  by_cases c7 : is_kw "cls" s = true
                  · simp only [c7, Bool.false_eq_true, eq_self_iff_true, if_true,
                      if_false] at h
                    exact ihcl _ (opsInTable_suffix hp (nextTok_suffix s)) h
                  · simp only [c7, Bool.false_eq_true, eq_self_iff_true, if_true,
                      if_false] at h
                    split at h
                    · exact absurd h (by simp)
                    · split at h
                      · split at h
                        · exact absurd h (by simp)
                        · exact absurd h (by simp)
                      · split at h
                        · exact absurd h (by simp)
                        · split at h
                          · exact absurd h (by simp)
                          · simp only [unexpectedErr] at h
                            exact absurd h (by simp)
    have hat : ∀ s, opsInTable s = true → parse_atom (f + 1) s ≠ .error .mapAtFail := by
      intro s hp h
      simp only [parse_atom] at h
      split at h
      · rename_i e' hi
        injection h with h₀
        subst h₀
        exact ihai _ hp hi
      · rename_i e₂ s₂ hi
        exact ihmc _ _ (opsInTable_suffix hp (sai _ _ _ hi)) h
    have hex : ∀ s, opsInTable s = true → parse_expr (f + 1) s ≠ .error .mapAtFail := by
      intro s hp h
      simp only [parse_expr] at h
      split at h
      · rename_i e' ha
        injection h with h₀
        subst h₀
        exact ihat _ hp ha
      · rename_i a s₂ ha
        have hp₂ : opsInTable s₂ = true := opsInTable_suffix hp (sat _ _ _ ha)
        split at h
        · rename_i e' hb
          injection h with h₀
          subst h₀
          exact ihmb _ _ _ hp₂ hb
        · rename_i e₂ s₃ hb
          exact ihmc _ _ (opsInTable_suffix hp₂ (smb _ _ _ _ _ hb)) h
    have hpr : ∀ s, opsInTable s = true → parse_prog (f + 1) s ≠ .error .mapAtFail := by
      intro s hp h
      simp only [parse_prog] at h
      split at h
      · rename_i e' hd
        injection h with h₀
        subst h₀
        exact delimited_not_atFail (P := fun u => opsInTable u = true)
          (fun hu ht => opsInTable_suffix hu ht)
          (fun s x s₁ hx => sex _ _ _ hx)
          (fun u hu => ihex u hu) hp hd
      · split at h
        · exact absurd h (by simp)
        · exact absurd h (by simp)
    exact ⟨hmb, hpc, hmc, hif, hcl, hfn, hai, hat, hex, hpr⟩

/-- The top-level driver loop at zero fuel. -/
theorem parse_toplevel_zero (acc : List Expression) (s : TState) :
    parse_toplevel 0 acc s =
      if eofB s then .ok (acc, s) else .error .outOfFuel := by
  rw [parse_toplevel.eq_def]

/-- One unfolding of the top-level driver loop at positive fuel. -/
theorem parse_toplevel_succ (f : Nat) (acc : List Expression) (s : TState) :
    parse_toplevel (f + 1) acc s =
      if eofB s then .ok (acc, s)
      else
        match parse_expr f s with
        | .error e => .error e
        | .ok (e, s₁) =>
          if eofB s₁ then parse_toplevel f (acc ++ [e]) s₁
          else
            match skip_punc ';' s₁ with
            | .error e => .error e
            | .ok s₂ => parse_toplevel f (acc ++ [e]) s₂ := by
  rw [parse_toplevel.eq_def]

/-- The top-level driver never raises the map-access failure when every
operator-kind token of the stream has a table precedence. -/
theorem parse_toplevel_not_atFail : ∀ (fuel : Nat) (acc : List Expression) (s : TState),
    opsInTable s = true → parse_toplevel fuel acc s ≠ .error .mapAtFail := by
  intro fuel
  induction fuel with
  | zero =>
    intro acc s hp h
    rw [parse_toplevel_zero] at h
    split at h
    · exact absurd h (by simp)
    · exact absurd h (by simp)
  | succ f ih =>
    intro acc s hp h
    rw [parse_toplevel_succ] at h
    split at h
    · exact absurd h (by simp)
    · obtain ⟨smb, spc, smc, sif, scl, sfn, sai, sat, sex, spr⟩ := parser_ok_suffix f
      split at h
      · rename_i e' hx
        injection h with h₀
        subst h₀
        exact (parser_not_atFail f).2.2.2.2.2.2.2.2.1 _ hp hx
      · rename_i e s₂ hx
        have hp₂ : opsInTable s₂ = true := opsInTable_suffix hp (sex _ _ _ hx)
        split at h
        · exact ih _ _ hp₂ h
        · split at h
          · rename_i e' hsp
            injection h with h₀
            subst h₀
            exact skip_punc_not_atFail _ _ hsp
          · rename_i s₃ hsp
            exact ih _ _ (opsInTable_suffix hp₂ (skip_punc_suffix hsp)) h

/-! Machinery for C7: well-formedness of the produced AST nodes. -/




/-- A non-null expression has `isNull = false`. -/
theorem isNull_eq_false {e : Expression} (h : e ≠ .nullE) : e.isNull = false := by
  cases e <;> simp [Expression.isNull] at h ⊢

/-- Membership form of `fullyFormedList`. -/
theorem fullyFormedList_of_mem {l : List Expression}
    (h : ∀ x ∈ l, fullyFormed x = true) : fullyFormedList l = true := by
  induction l with
  | nil => rfl
  | cons e es ihl =>
    simp only [fullyFormedList, Bool.and_eq_true]
    exact ⟨h e (by simp), ihl (fun x hx => h x (by simp [hx]))⟩



/-- The no-empty-braces precondition restricts to the tail. -/
theorem noEmptyBraces_tail {t : Token} {ts : TState}
    (h : noEmptyBraces (t :: ts) = true) : noEmptyBraces ts = true := by
  cases ts with
  | nil => rfl
  | cons t₂ rest =>
    simp only [noEmptyBraces, Bool.and_eq_true] at h
    exact h.2

/-- The no-empty-braces precondition restricts to suffixes. -/
theorem noEmptyBraces_suffix {s t : TState} (h : noEmptyBraces s = true) (hsuf : t <:+ s) :
    noEmptyBraces t = true := by
  obtain ⟨r, hr⟩ := hsuf
  revert h hr
  induction r generalizing s with
  | nil =>
    intro h hr
    subst hr
    simpa using h
  | cons a r ihr =>
    intro h hr
    cases s with
    | nil => exact absurd hr (by simp)
    | cons b bs =>
      injection hr with h₁ h₂
      exact ihr (noEmptyBraces_tail h) h₂

/-- `is_punc` on a non-empty stream is the token-level test on its head
(for a non-null character). -/
theorem is_punc_cons {ch : Char} {t : Token} {ts : TState} (hch : (ch == Char.ofNat 0) = false) :
    is_punc ch (t :: ts) = pMatch ch t := by
  simp [is_punc, pMatch, peek, hch]

/-- A successful `skip_punc` means the stream started with a matching
punctuation token and exactly that token was consumed. -/
theorem skip_punc_ok {ch : Char} {s s₁ : TState} (h : skip_punc ch s = .ok s₁) :
    is_punc ch s = true ∧ s₁ = (nextTok s).2 := by
  unfold skip_punc at h
  split at h
  · injection h with h₀
    exact ⟨by assumption, h₀.symm⟩
  · exact absurd h (by simp)

/-- The loop of `delimited` only ever appends to its accumulator. -/
theorem delimitedCore_acc_prefix {α : Type} {endc sep : Char} {item : TState → PResult α} :
    ∀ (fuel : Nat) (first : Bool) (acc : List α) (s : TState) (l : List α) (s₁ : TState),
      delimitedCore endc sep item fuel first acc s = .ok (l, s₁) → ∃ t, l = acc ++ t := by
  intro fuel
  induction fuel with
  | zero =>
    intro first acc s l s₁ h
    rw [delimitedCore_unfold] at h
    split at h
    · split at h
      · exact absurd h (by simp)
      · injection h with h₀
        injection h₀ with h₁ h₂
        exact ⟨[], by simp [← h₁]⟩
    · split at h
      · split at h
        · exact absurd h (by simp)
        · injection h with h₀
          injection h₀ with h₁ h₂
          exact ⟨[], by simp [← h₁]⟩
      · split at h
        · exact absurd h (by simp)
        · split at h
          · split at h
            · exact absurd h (by simp)
            · injection h with h₀
              injection h₀ with h₁ h₂
              exact ⟨[], by simp [← h₁]⟩
          · split at h
            · exact absurd h (by simp)
            · exact absurd h (by simp)
  | succ g ih =>
    intro first acc s l s₁ h
    rw [delimitedCore_unfold] at h
    split at h
    · split at h
      · exact absurd h (by simp)
      · injection h with h₀
        injection h₀ with h₁ h₂
        exact ⟨[], by simp [← h₁]⟩
    · split at h
      · split at h
        · exact absurd h (by simp)
        · injection h with h₀
          injection h₀ with h₁ h₂
          exact ⟨[], by simp [← h₁]⟩
      · split at h
        · exact absurd h (by simp)
        · split at h
          · split at h
            · exact absurd h (by simp)
            · injection h with h₀
              injection h₀ with h₁ h₂
              exact ⟨[], by simp [← h₁]⟩
          · split at h
            · exact absurd h (by simp)
            · rename_i x s₃ hx
              obtain ⟨t, ht⟩ := ih _ _ _ _ _ h
              exact ⟨x :: t, by simp [ht]⟩

/-- Items produced by the loop of `delimited` satisfy any property the
item parser guarantees under a suffix-closed stream precondition. -/
theorem delimitedCore_items {α : Type} {endc sep : Char} {item : TState → PResult α}
    {P : TState → Prop} {Q : α → Prop}
    (hP : ∀ {u t : TState}, P u → t <:+ u → P t)
    (hsuf : ∀ s x s₁, item s = .ok (x, s₁) → s₁ <:+ s)
    (hitem : ∀ s x s₁, P s → item s = .ok (x, s₁) → Q x) :
    ∀ (fuel : Nat) (first : Bool) (acc : List α) (s : TState) (l : List α) (s₁ : TState),
      P s → (∀ x ∈ acc, Q x) →
      delimitedCore endc sep item fuel first acc s = .ok (l, s₁) → ∀ x ∈ l, Q x := by
  intro fuel
  induction fuel with
  | zero =>
    intro first acc s l s₁ hp hacc h
    rw [delimitedCore_unfold] at h
    split at h
    · split at h
      · exact absurd h (by simp)
      · injection h with h₀
        injection h₀ with h₁ h₂
        exact h₁ ▸ hacc
    · split at h
      · split at h
        · exact absurd h (by simp)
        · injection h with h₀
          injection h₀ with h₁ h₂
          exact h₁ ▸ hacc
      · split at h
        · exact absurd h (by simp)
        · split at h
          · split at h
            · exact absurd h (by simp)
            · injection h with h₀
              injection h₀ with h₁ h₂
              exact h₁ ▸ hacc
          · split at h
            · exact absurd h (by simp)
            · exact absurd h (by simp)
  | succ g ih =>
    intro first acc s l s₁ hp hacc h
    rw [delimitedCore_unfold] at h
    split at h
    · split at h
      · exact absurd h (by simp)
      · injection h with h₀
        injection h₀ with h₁ h₂
        exact h₁ ▸ hacc
    · split at h
      · split at h
        · exact absurd h (by simp)
        · injection h with h₀
          injection h₀ with h₁ h₂
          exact h₁ ▸ hacc
      · split at h
        · exact absurd h (by simp)
        · rename_i s₂ hsep
          have hs₂ : s₂ <:+ s := by
            split at hsep
            · injection hsep with h₀
              exact h₀ ▸ List.suffix_refl s
            · exact skip_punc_suffix hsep
          split at h
          · split at h
            · exact absurd h (by simp)
            · injection h with h₀
              injection h₀ with h₁ h₂
              exact h₁ ▸ hacc
          · split at h
            · exact absurd h (by simp)
            · rename_i x s₃ hx
              have hq : Q x := hitem _ _ _ (hP hp hs₂) hx
              refine ih _ _ _ _ _ (hP hp ((hsuf _ _ _ hx).trans hs₂)) ?_ h
              intro y hy
              rcases List.mem_append.mp hy with hy | hy
              · exact hacc y hy
              · obtain rfl : y = x := by simpa using hy
                exact hq

/-- Items of a full `delimited` list satisfy any property the item parser
guarantees under a suffix-closed stream precondition. -/
theorem delimited_items {α : Type} {startc endc sep : Char} {item : TState → PResult α}
    {P : TState → Prop} {Q : α → Prop}
    (hP : ∀ {u t : TState}, P u → t <:+ u → P t)
    (hsuf : ∀ s x s₁, item s = .ok (x, s₁) → s₁ <:+ s)
    (hitem : ∀ s x s₁, P s → item s = .ok (x, s₁) → Q x)
    {fuel : Nat} {s : TState} {l : List α} {s₁ : TState}
    (hp : P s) (h : delimited startc endc sep item fuel s = .ok (l, s₁)) : ∀ x ∈ l, Q x := by
  unfold delimited at h
  split at h
  · exact absurd h (by simp)
  · rename_i s₂ hsp
    exact delimitedCore_items hP hsuf hitem _ _ _ _ _ _
      (hP hp (skip_punc_suffix hsp)) (by simp) h

/-- `parse_ext` results are fully formed and non-null (the absent body of
an extern declaration is an optional child). -/
theorem parse_ext_good {fuel : Nat} {s : TState} {e : Expression} {s₁ : TState}
    (h : parse_ext fuel s = .ok (e, s₁)) : goodE e := by
  simp only [parse_ext] at h
  split at h
  · exact absurd h (by simp)
  · split at h
    · exact absurd h (by simp)
    · split at h
      · exact absurd h (by simp)
      · injection h with h₀
        injection h₀ with h₁ h₂
        exact ⟨by simp [← h₁, fullyFormed], by simp [← h₁]⟩

/-- `parse_bool` results are fully formed and non-null. -/
theorem parse_bool_good {s : TState} {e : Expression} {s₁ : TState}
    (h : parse_bool s = .ok (e, s₁)) : goodE e := by
  simp only [parse_bool] at h
  injection h with h₀
  injection h₀ with h₁ h₂
  exact ⟨by simp [← h₁, fullyFormed], by simp [← h₁]⟩

/-- The loop of `delimited`, entered at a first position that is neither
the end of the stream nor the closing delimiter, produces at least one
item. -/
theorem delimitedCore_ne_nil {α : Type} {endc sep : Char} {item : TState → PResult α}
    {fuel : Nat} {s : TState} {l : List α} {s₁ : TState}
    (hne : is_punc endc s = false) (hnee : eofB s = false)
    (h : delimitedCore endc sep item fuel true [] s = .ok (l, s₁)) : l ≠ [] := by
  rw [delimitedCore_unfold] at h
  simp only [hnee, hne, Bool.false_eq_true, if_false, eq_self_iff_true, if_true] at h
  split at h
  · exact absurd h (by simp)
  · rename_i x s₂ hx
    cases fuel with
    | zero => simp at h
    | succ g =>
      obtain ⟨t, ht⟩ := delimitedCore_acc_prefix _ _ _ _ _ _ h
      simp [ht]

/-- Under the no-empty-braces precondition, every parsing function of the
mutual block returns a fully formed, non-null expression (given that the
expression arguments of `maybe_binary`, `parse_call` and `maybe_call` are
themselves fully formed and non-null). -/
theorem parser_wellformed : ∀ fuel : Nat,
    (∀ left prec s e s₁, noEmptyBraces s = true → goodE left →
        maybe_binary fuel left prec s = .ok (e, s₁) → goodE e) ∧
    (∀ func s e s₁, noEmptyBraces s = true → goodE func →
        parse_call fuel func s = .ok (e, s₁) → goodE e) ∧
    (∀ r s e s₁, noEmptyBraces s = true → goodE r →
        maybe_call fuel r s = .ok (e, s₁) → goodE e) ∧
    (∀ s e s₁, noEmptyBraces s = true → parse_if fuel s = .ok (e, s₁) → goodE e) ∧
    (∀ s e s₁, noEmptyBraces s = true → parse_closure fuel s = .ok (e, s₁) → goodE e) ∧
    (∀ s e s₁, noEmptyBraces s = true → parse_func fuel s = .ok (e, s₁) → goodE e) ∧
    (∀ s e s₁, noEmptyBraces s = true → parse_atom_inner fuel s = .ok (e, s₁) → goodE e) ∧
    (∀ s e s₁, noEmptyBraces s = true → parse_atom fuel s = .ok (e, s₁) → goodE e) ∧
    (∀ s e s₁, noEmptyBraces s = true → parse_expr fuel s = .ok (e, s₁) → goodE e) ∧
    (∀ s e s₁, noEmptyBraces s = true → parse_prog fuel s = .ok (e, s₁) → goodE e) := by
  intro fuel
  induction fuel with
  | zero =>
    refine ⟨fun left prec s e s₁ hp hg h => ?_, fun func s e s₁ hp hg h => ?_,
      fun r s e s₁ hp hg h => ?_, fun s e s₁ hp h => ?_, fun s e s₁ hp h => ?_,
      fun s e s₁ hp h => ?_, fun s e s₁ hp h => ?_, fun s e s₁ hp h => ?_,
      fun s e s₁ hp h => ?_, fun s e s₁ hp h => ?_⟩
    · simp [maybe_binary] at h
    · simp [parse_call] at h
    · simp [maybe_call] at h
    · simp [parse_if] at h
    · simp [parse_closure] at h
    · simp [parse_func] at h
    · simp [parse_atom_inner] at h
    · simp [parse_atom] at h
    · simp [parse_expr] at h
    · simp [parse_prog] at h
  | succ f ih =>
    obtain ⟨ihmb, ihpc, ihmc, ihif, ihcl, ihfn, ihai, ihat, ihex, ihpr⟩ := ih
    obtain ⟨smb, spc, smc, sif, scl, sfn, sai, sat, sex, spr⟩ := parser_ok_suffix f
    have hmb : ∀ left prec s e s₁, noEmptyBraces s = true → goodE left →
        maybe_binary (f + 1) left prec s = .ok (e, s₁) → goodE e := by
      intro left prec s e s₁ hp hg h
      simp only [maybe_binary] at h
      split at h
      · split at h
        · exact absurd h (by simp)
        · rename_i tokprec hlk
          split at h
          · split at h
            · exact absurd h (by simp)
            · rename_i atom s₂ hpa
              split at h
              · exact absurd h (by simp)
              · rename_i right s₃ hmbr
                have hp₂ : noEmptyBraces s₂ = true :=
                  noEmptyBraces_suffix hp ((sat _ _ _ hpa).trans (nextTok_suffix s))
                have hp₃ : noEmptyBraces s₃ = true :=
                  noEmptyBraces_suffix hp₂ (smb _ _ _ _ _ hmbr)
                have hga : goodE atom :=
                  ihat _ _ _ (noEmptyBraces_suffix hp (nextTok_suffix s)) hpa
                have hgr : goodE right := ihmb _ _ _ _ _ hp₂ hga hmbr
                have hnode : ∀ op, goodE (Expression.Assign op left right) ∧
                    goodE (Expression.Binary op left right) := by
                  intro op
                  constructor <;>
                    exact ⟨by simp [fullyFormed, isNull_eq_false hg.2, isNull_eq_false hgr.2,
                        hg.1, hgr.1], by simp⟩
                split at h
                · exact ihmb _ _ _ _ _ hp₃ (hnode _).1 h
                · exact ihmb _ _ _ _ _ hp₃ (hnode _).2 h
          · injection h with h₀
            injection h₀ with h₁ h₂
            exact h₁ ▸ hg
      · injection h with h₀
        injection h₀ with h₁ h₂
        exact h₁ ▸ hg
    have hpc : ∀ func s e s₁, noEmptyBraces s = true → goodE func →
        parse_call (f + 1) func s = .ok (e, s₁) → goodE e := by
      intro func s e s₁ hp hg h
      simp only [parse_call] at h
      split at h
      · exact absurd h (by simp)
      · rename_i args s₂ hd
        have hargs : ∀ x ∈ args, goodE x :=
          delimited_items (P := fun u => noEmptyBraces u = true)
            (fun hu ht => noEmptyBraces_suffix hu ht)
            (fun s x s₁ hx => sex _ _ _ hx)
            (fun s x s₁ hu hx => ihex _ _ _ hu hx) hp hd
        injection h with h₀
        injection h₀ with h₁ h₂
        refine h₁ ▸ ⟨?_, by simp⟩
        simp only [fullyFormed, Bool.and_eq_true]
        exact ⟨⟨by simp [isNull_eq_false hg.2], hg.1⟩,
          fullyFormedList_of_mem (fun x hx => (hargs x hx).1)⟩
    have hmc : ∀ r s e s₁, noEmptyBraces s = true → goodE r →
        maybe_call (f + 1) r s = .ok (e, s₁) → goodE e := by
      intro r s e s₁ hp hg h
      simp only [maybe_call] at h
      split at h
      · exact ihpc _ _ _ _ hp hg h
      · injection h with h₀
        injection h₀ with h₁ h₂
        exact h₁ ▸ hg
    have hif : ∀ s e s₁, noEmptyBraces s = true → parse_if (f + 1) s = .ok (e, s₁) →
        goodE e := by
      intro s e s₁ hp h
      simp only [parse_if] at h
      split at h
      · exact absurd h (by simp)
      · rename_i s₂ hkw
        have hp₂ : noEmptyBraces s₂ = true := noEmptyBraces_suffix hp (skip_kw_suffix hkw)
        split at h
        · exact absurd h (by simp)
        · rename_i cond s₃ hc
          have hgc : goodE cond := ihex _ _ _ hp₂ hc
          have hp₃ : noEmptyBraces s₃ = true := noEmptyBraces_suffix hp₂ (sex _ _ _ hc)
          split at h
          · exact absurd h (by simp)
          · rename_i thenB s₄ ht
            have hgt : goodE thenB := ihex _ _ _ hp₃ ht
            have hp₄ : noEmptyBraces s₄ = true := noEmptyBraces_suffix hp₃ (sex _ _ _ ht)
            split at h
            · split at h
              · exact absurd h (by simp)
              · rename_i elsB s₅ he
                have hge : goodE elsB :=
                  ihex _ _ _ (noEmptyBraces_suffix hp₄ (nextTok_suffix s₄)) he
                injection h with h₀
                injection h₀ with h₁ h₂
                refine h₁ ▸ ⟨?_, by simp⟩
                simp [fullyFormed, isNull_eq_false hgc.2, isNull_eq_false hgt.2,
                  hgc.1, hgt.1, hge.1]
            · injection h with h₀
              injection h₀ with h₁ h₂
              refine h₁ ▸ ⟨?_, by simp⟩
              simp [fullyFormed, isNull_eq_false hgc.2, isNull_eq_false hgt.2,
                hgc.1, hgt.1]
    have hcl : ∀ s e s₁, noEmptyBraces s = true → parse_closure (f + 1) s = .ok (e, s₁) →
        goodE e := by
      intro s e s₁ hp h
      simp only [parse_closure] at h
      split at h
      · exact absurd h (by simp)
      · rename_i params s₂ hd
        have hp₂ : noEmptyBraces s₂ = true := noEmptyBraces_suffix hp
          (delimited_suffix (fun s x s₁ hx => parse_varname_suffix hx) hd)
        split at h
        · exact absurd h (by simp)
        · rename_i body s₃ hb
          have hgb : goodE body := ihpr _ _ _ hp₂ hb
          injection h with h₀
          injection h₀ with h₁ h₂
          exact h₁ ▸ ⟨by simp [fullyFormed, hgb.1], by simp⟩
    have hfn : ∀ s e s₁, noEmptyBraces s = true → parse_func (f + 1) s = .ok (e, s₁) →
        goodE e := by
      intro s e s₁ hp h
      simp only [parse_func] at h
      have htail : (nextTok (nextTok s).2).2 <:+ s :=
        (nextTok_suffix (nextTok s).2).trans (nextTok_suffix s)
      split at h
      · exact absurd h (by simp)
      · rename_i params s₃ hps
        have hs₃ : s₃ <:+ s := by
          split at hps
          · exact (delimited_suffix (fun s x s₁ hx => parse_param_suffix hx) hps).trans htail
          · injection hps with h₀
            injection h₀ with ha hb
            exact hb ▸ htail
        split at h
        · exact absurd h (by simp)
        · rename_i body s₄ hb
          have hgb : goodE body := ihex _ _ _ (noEmptyBraces_suffix hp hs₃) hb
          injection h with h₀
          injection h₀ with h₁ h₂
          exact h₁ ▸ ⟨by simp [fullyFormed, hgb.1], by simp⟩
    have hai : ∀ s e s₁, noEmptyBraces s = true → parse_atom_inner (f + 1) s = .ok (e, s₁) →
        goodE e := by
      intro s e s₁ hp h
      simp only [parse_atom_inner] at h
      by_cases c1 : is_kw "ext" s = true
      · simp only [c1, Bool.false_eq_true, eq_self_iff_true, if_true, if_false] at h
        exact parse_ext_good h
      · simp only [c1, Bool.false_eq_true, eq_self_iff_true, if_true, if_false] at h
        by_cases c2 : is_kw "def" s = true
        · simp only [c2, Bool.false_eq_true, eq_self_iff_true, if_true, if_false] at h
          exact ihfn _ _ _ hp h
        · simp only [c2, Bool.false_eq_true, eq_self_iff_true, if_true, if_false] at h
          by_cases c3 : is_punc '(' s = true
          · simp only [c3, Bool.false_eq_true, eq_self_iff_true, if_true, if_false] at h
            split at h
            · exact absurd h (by simp)
            · rename_i expr s₂ hx
              split at h
              · exact absurd h (by simp)
              · rename_i s₃ hsp
                injection h with h₀
                injection h₀ with h₁ h₂
                exact h₁ ▸ ihex _ _ _ (noEmptyBraces_suffix hp (nextTok_suffix s)) hx
          · simp only [c3, Bool.false_eq_true, eq_self_iff_true, if_true, if_false] at h
            by_cases c4 : is_punc '{' s = true
            · simp only [c4, Bool.false_eq_true, eq_self_iff_true, if_true, if_false] at h
              exact ihpr _ _ _ hp h
            · simp only [c4, Bool.false_eq_true, eq_self_iff_true, if_true, if_false] at h
              by_cases c5 : is_kw "if" s = true
              · simp only [c5, Bool.false_eq_true, eq_self_iff_true, if_true, if_false] at h
                exact ihif _ _ _ hp h
              · simp only [c5, Bool.false_eq_true, eq_self_iff_true, if_true, if_false] at h
                by_cases c6 : (is_kw "true" s || is_kw "false" s) = true
                · simp only [c6, Bool.false_eq_true, eq_self_iff_true, if_true, if_false] at h
                  exact parse_bool_good h
                · simp only [c6, Bool.false_eq_true, eq_self_iff_true, if_true, if_false] at h
                  by_cases c7 : is_kw "cls" s = true
                  · simp only [c7, Bool.false_eq_true, eq_self_iff_true, if_true,
                      if_false] at h
                    exact ihcl _ _ _ (noEmptyBraces_suffix hp (nextTok_suffix s)) h
                  · simp only [c7, Bool.false_eq_true, eq_self_iff_true, if_true,
                      if_false] at h
                    split at h
                    · injection h with h₀
                      injection h₀ with h₁ h₂
                      exact h₁ ▸ ⟨by simp [fullyFormed], by simp⟩
                    · split at h
                      · split at h
                        · injection h with h₀
                          injection h₀ with h₁ h₂
                          exact h₁ ▸ ⟨by simp [fullyFormed], by simp⟩
                        · exact absurd h (by simp)
                      · split at h
                        · injection h with h₀
                          injection h₀ with h₁ h₂
                          exact h₁ ▸ ⟨by simp [fullyFormed], by simp⟩
                        · split at h
                          · injection h with h₀
                            injection h₀ with h₁ h₂
                            exact h₁ ▸ ⟨by simp [fullyFormed], by simp⟩
                          · exact absurd h (by simp)
    have hat : ∀ s e s₁, noEmptyBraces s = true → parse_atom (f + 1) s = .ok (e, s₁) →
        goodE e := by
      intro s e s₁ hp h
      simp only [parse_atom] at h
      split at h
      · exact absurd h (by simp)
      · rename_i e₂ s₂ hi
        exact ihmc _ _ _ _ (noEmptyBraces_suffix hp (sai _ _ _ hi)) (ihai _ _ _ hp hi) h
    have hex : ∀ s e s₁, noEmptyBraces s = true → parse_expr (f + 1) s = .ok (e, s₁) →
        goodE e := by
      intro s e s₁ hp h
      simp only [parse_expr] at h
      split at h
      · exact absurd h (by simp)
      · rename_i a s₂ ha
        have hp₂ : noEmptyBraces s₂ = true := noEmptyBraces_suffix hp (sat _ _ _ ha)
        split at h
        · exact absurd h (by simp)
        · rename_i e₂ s₃ hb
          have hp₃ : noEmptyBraces s₃ = true := noEmptyBraces_suffix hp₂ (smb _ _ _ _ _ hb)
          exact ihmc _ _ _ _ hp₃ (ihmb _ _ _ _ _ hp₂ (ihat _ _ _ hp ha) hb) h
    have hpr : ∀ s e s₁, noEmptyBraces s = true → parse_prog (f + 1) s = .ok (e, s₁) →
        goodE e := by
      intro s e s₁ hp h
      simp only [parse_prog] at h
      split at h
      · exact absurd h (by simp)
      · rename_i vars s₂ hd
        have hvars : ∀ x ∈ vars, goodE x :=
          delimited_items (P := fun u => noEmptyBraces u = true)
            (fun hu ht => noEmptyBraces_suffix hu ht)
            (fun s x s₁ hx => sex _ _ _ hx)
            (fun s x s₁ hu hx => ihex _ _ _ hu hx) hp hd
        split at h
        · rename_i hempty
          exfalso
          simp only [delimited] at hd
          split at hd
          · exact absurd hd (by simp)
          · rename_i s₃ hsp
            obtain ⟨hpunc, hs₃⟩ := skip_punc_ok hsp
            cases s with
            | nil => simp [is_punc, peek] at hpunc
            | cons t₁ ts =>
              have hm₁ : pMatch '{' t₁ = true := by
                rw [is_punc_cons (by decide)] at hpunc
                exact hpunc
              have hs₃' : s₃ = ts := by simpa [nextTok] using hs₃
              rw [hs₃'] at hd
              cases ts with
              | nil =>
                rw [delimitedCore_unfold] at hd
                simp [eofB, skip_punc, is_punc, peek, nextTok] at hd
              | cons t₂ ts₂ =>
                have hp' := hp
                simp only [noEmptyBraces, Bool.and_eq_true] at hp'
                have hne2 : pMatch '}' t₂ = false := by
                  have h1 := hp'.1
                  simp [hm₁] at h1
                  exact h1
                have hne : is_punc '}' (t₂ :: ts₂) = false := by
                  rw [is_punc_cons (by decide)]
                  exact hne2
                exact (delimitedCore_ne_nil hne (by simp [eofB]) hd)
                  (by simpa using hempty)
        · rename_i hempty
          injection h with h₀
          injection h₀ with h₁ h₂
          refine h₁ ▸ ⟨?_, by simp⟩
          simp only [fullyFormed]
          exact fullyFormedList_of_mem (fun x hx => (hvars x hx).1)
    exact ⟨hmb, hpc, hmc, hif, hcl, hfn, hai, hat, hex, hpr⟩


/-- The top-level driver, started with well-formed accumulated results on
a stream without empty brace pairs, produces only fully formed, non-null
expressions. -/
theorem parse_toplevel_wf : ∀ (fuel : Nat) (acc : List Expression) (s : TState)
    (ast : List Expression) (s₁ : TState), noEmptyBraces s = true →
    (∀ x ∈ acc, goodE x) → parse_toplevel fuel acc s = .ok (ast, s₁) →
    ∀ x ∈ ast, goodE x := by
  intro fuel
  induction fuel with
  | zero =>
    intro acc s ast s₁ hp hacc h
    rw [parse_toplevel_zero] at h
    split at h
    · injection h with h₀
      injection h₀ with h₁ h₂
      exact h₁ ▸ hacc
    · exact absurd h (by simp)
  | succ f ih =>
    intro acc s ast s₁ hp hacc h
    rw [parse_toplevel_succ] at h
    split at h
    · injection h with h₀
      injection h₀ with h₁ h₂
      exact h₁ ▸ hacc
    · obtain ⟨smb, spc, smc, sif, scl, sfn, sai, sat, sex, spr⟩ := parser_ok_suffix f
      split at h
      · exact absurd h (by simp)
      · rename_i e₂ s₂ hx
        have hg : goodE e₂ := (parser_wellformed f).2.2.2.2.2.2.2.2.1 _ _ _ hp hx
        have hp₂ : noEmptyBraces s₂ = true := noEmptyBraces_suffix hp (sex _ _ _ hx)
        have hacc₂ : ∀ x ∈ acc ++ [e₂], goodE x := by
          intro y hy
          rcases List.mem_append.mp hy with hy | hy
          · exact hacc y hy
          · obtain rfl : y = e₂ := by simpa using hy
            exact hg
        split at h
        · exact ih _ _ _ _ hp₂ hacc₂ h
        · split at h
          · exact absurd h (by simp)
          · rename_i s₃ hsp
            exact ih _ _ _ _ (noEmptyBraces_suffix hp₂ (skip_punc_suffix hsp)) hacc₂ h

/-- C7, counterexample: the claim says no returned node has a null
mandatory child on any input that parses without a diagnostic; but
`{}+1` parses successfully to Binary(`+`, null, 1), whose left operand is
the null expression produced by the empty block `{}` — a node that is not
fully formed. -/
theorem fully_formed_violated_by_empty_block :
    parseProgram 20 [puncTok "\x7b", puncTok "\x7d", opTok "+", numTok "1"] =
      .ok ([.Binary "+" .nullE (.Number 1)], []) ∧
    fullyFormed (.Binary "+" .nullE (.Number 1)) = false :=
  ⟨rfl, rfl⟩

/-- C7, amended: for every input that parses without a diagnostic and
contains no empty brace pair `{}`, every expression of the returned AST
is fully formed and non-null — no Binary/Assign operand, Call callee, or
If condition/then-branch is a null pointer.  (Inputs with `{}` violate
the original claim: see `fully_formed_violated_by_empty_block`.) -/
theorem fully_formed_without_empty_braces (fuel : Nat) (s : TState)
    (ast : List Expression) (s₁ : TState) (hp : noEmptyBraces s = true)
    (h : parseProgram fuel s = .ok (ast, s₁)) :
    ∀ e ∈ ast, fullyFormed e = true ∧ e ≠ .nullE := by
  intro e he
  have hg := parse_toplevel_wf fuel [] s ast s₁ hp (by simp) h e he
  exact ⟨hg.1, hg.2⟩

/-- C7, witness for `fully_formed_without_empty_braces` at `1+2`. -/
theorem fully_formed_without_empty_braces_witness :
    noEmptyBraces [numTok "1", opTok "+", numTok "2"] = true ∧
    ∀ e ∈ [Expression.Binary "+" (.Number 1) (.Number 2)],
      fullyFormed e = true ∧ e ≠ .nullE :=
  ⟨rfl, fully_formed_without_empty_braces 20 [numTok "1", opTok "+", numTok "2"]
    [.Binary "+" (.Number 1) (.Number 2)] [] rfl rfl⟩

/-- C10: the precedence-climbing step looks the operator text up through
an unguarded map access: whenever the lookahead is an operator-kind token
whose text is not one of the table keys, `maybe_binary` fails with the
out-of-range exception `mapAtFail`, which is not a diagnostic of the
parser (no UnexpectedToken or MissingOperator message is produced); and
whenever every operator-kind token of the stream is in the table, no
parse can produce that failure, so the climb is total exactly under that
precondition on the token source. -/
theorem precedence_lookup_unguarded :
    (∀ (fuel : Nat) (left : Expression) (prec : Int) (v : String) (rest : TState),
      OP_PRECEDENCE.lookup v = none →
      maybe_binary (fuel + 1) left prec (⟨"op", v⟩ :: rest) = .error .mapAtFail) ∧
    (∀ (fuel : Nat) (s : TState), opsInTable s = true →
      parseProgram fuel s ≠ .error .mapAtFail) := by
  constructor
  · intro fuel left prec v rest hlk
    simp [maybe_binary, is_op, peek, hlk]
  · intro fuel s hp
    exact parse_toplevel_not_atFail fuel [] s hp

/-- C10, witness for `precedence_lookup_unguarded`: the unknown operator
`**` triggers the non-diagnostic failure, while `1+2` (all operators in
the table) never produces it. -/
theorem precedence_lookup_unguarded_witness :
    OP_PRECEDENCE.lookup "**" = none ∧
    maybe_binary 5 (.Number 1) 0 [⟨"op", "**"⟩] = .error .mapAtFail ∧
    opsInTable [numTok "1", opTok "+", numTok "2"] = true ∧
    parseProgram 20 [numTok "1", opTok "+", numTok "2"] ≠ .error .mapAtFail :=
  ⟨rfl, precedence_lookup_unguarded.1 4 (.Number 1) 0 "**" [] rfl, rfl,
    precedence_lookup_unguarded.2 20 _ rfl⟩


